import Mathlib

/-!
# Verification of the GoMirror crawl engine

A shallow embedding, in Lean 4, of the core of the GoMirror website
mirroring program (`scanner.go`, `sources.go`), together with theorems
settling the specified properties of the resource registry, the crawl
task, the retry/backoff policy, the path-safety check and the URL
classifier.

Go strings are modelled as Lean `String`s, but every operation is
defined over the underlying character list so that all definitions
evaluate by kernel reduction.  Byte lengths (Go `len`) are computed
with `Char.utf8Size`, matching Go's byte-oriented `len` on UTF-8
strings.
-/

namespace GoMirror

/-! ## Character-level models of the Go `strings` primitives -/

/-- One character of `strings.ToLower`, restricted to the ASCII range
(the only range exercised by URL seeds; Go lowercases `A`–`Z` to
`a`–`z` exactly like this). -/
def lowerChar (c : Char) : Char :=
  if 65 ≤ c.toNat ∧ c.toNat ≤ 90 then Char.ofNat (c.toNat + 32) else c

/-- Model of Go `strings.ToLower`. -/
def goToLower (s : String) : String := ⟨s.data.map lowerChar⟩

/-- Model of Go `len(s)`: the UTF-8 byte length of a string. -/
def goLen (s : String) : Nat := (s.data.map Char.utf8Size).sum

/-- Model of Go `strings.Index(s, pre) == 0`, i.e. a prefix test. -/
def goStartsWith (s pre : String) : Bool := pre.data.isPrefixOf s.data

/-- Model of Go `strings.Split(s, sep)` for a single-character
separator (all separators used by the program — `","`, `" "`, `"/"` —
are single characters).  Like Go's `Split`, empty segments are kept
and the result is never empty. -/
def goSplitChar (sep : Char) (s : String) : List String :=
  (s.data.splitOn sep).map fun l => ⟨l⟩

/-! ## The URL model

A structured URL as produced by Go's `net/url.Parse`, restricted to
the fields the program reads: scheme, host and the rest of the
reference (path, query and fragment lumped together, which is all the
crawl engine ever appends to the host).  `urlParse` models the
fragment of `net/url.Parse` the program exercises: `http://`- and
`https://`-prefixed absolute URLs, protocol-relative `//` references,
and everything else as a scheme-less, host-less reference. -/

structure GoURL where
  scheme : String
  host : String
  path : String
deriving DecidableEq, Repr

/-- Model of `url.URL.String()` on the represented fields. -/
def urlString (u : GoURL) : String :=
  if u.scheme ≠ "" then u.scheme ++ "://" ++ u.host ++ u.path
  else if u.host ≠ "" then "//" ++ u.host ++ u.path
  else u.path

/-- Model of `url.URL.Hostname()`: the host with any `:port` suffix
removed. -/
def goHostname (u : GoURL) : String := ⟨u.host.data.takeWhile (· ≠ ':')⟩

/-- `true` on characters that may appear in the authority (host)
component: parsing stops at `/`, `?` or `#`. -/
def hostChar (c : Char) : Bool := c ≠ '/' && c ≠ '?' && c ≠ '#'

/-- Authority parsing: the host extends to the first `/`, `?` or `#`;
the remainder is the path (plus query/fragment). -/
def parseAuthority (scheme : String) (rest : List Char) : GoURL :=
  { scheme := scheme
    host := ⟨rest.takeWhile hostChar⟩
    path := ⟨rest.dropWhile hostChar⟩ }

/-- Model of the success path of Go `url.Parse` on the shapes the
program exercises: `http://`/`https://`-prefixed absolute URLs,
protocol-relative `//` references, and everything else as a
scheme-less, host-less reference.  Inputs on which Go's `Parse`
*fails* (control bytes, invalid percent-escapes, invalid port or host
characters) are outside this model; where that failure path matters —
`Scanner.parseURL` propagates it — the parser is abstracted instead
(`parseURLWith`), and this total model is only used on inputs whose
Go behaviour was checked concretely. -/
def urlParse (s : String) : GoURL :=
  if goStartsWith s "https://" then parseAuthority "https" (s.data.drop 8)
  else if goStartsWith s "http://" then parseAuthority "http" (s.data.drop 7)
  else if goStartsWith s "//" then parseAuthority "" (s.data.drop 2)
  else { scheme := "", host := "", path := s }

/-- `Scanner.IsInterstingProtocol` (scanner.go:831): only `http`,
`https` and `file` schemes are interesting. -/
def IsInterstingProtocol (url : GoURL) : Bool :=
  match url.scheme with
  | "http" => true
  | "https" => true
  | "file" => true
  | _ => false

/-! ## `Scanner.parseURL` (scanner.go:845) -/

inductive URLError where
  /-- "Слишком короткий адрес сайта" -/
  | tooShort
  /-- "Не удалось однозначно прочитать URL" -/
  | emptyHost
  /-- an error of the underlying `net/url.Parse`, propagated by
  `Scanner.parseURL` (scanner.go:853, 857, 863, 868–870) -/
  | parseFail
deriving DecidableEq, Repr

/-- `Scanner.parseURL` (scanner.go:845–878): lowercases the input,
rejects inputs shorter than 5 bytes, parses `https://`-, `http://`-
and `//`-prefixed input directly, and otherwise prepends `http://`
and requires a non-empty host. -/
def parseURL (text0 : String) : Except URLError GoURL :=
  let text := goToLower text0
  if goLen text < 5 then .error .tooShort
  else if goStartsWith text "https://" then .ok (urlParse text)
  else if goStartsWith text "http://" then .ok (urlParse text)
  else if goStartsWith text "//" then .ok (urlParse text)
  else
    let u := urlParse ("http://" ++ text)
    if u.host = "" then .error .emptyHost
    else .ok u

/-- Does the (lowercased) input carry one of the three recognised
prefixes? -/
def hasURLPrefix (t : String) : Bool :=
  goStartsWith t "https://" || goStartsWith t "http://" || goStartsWith t "//"

/-- `Scanner.parseURL` (scanner.go:845–878) with the stdlib parser
abstracted: `P` models `net/url.Parse`, with `P s = none` standing
for Parse's error return (Go's `Parse` fails on control bytes,
invalid percent-escapes and invalid port or host characters, and
`parseURL` propagates that error at scanner.go:853, 857, 863 and
868–870).  A theorem quantified over `P` holds of the program
whatever the stdlib parser's exact failure set is. -/
def parseURLWith (P : String → Option GoURL) (text0 : String) : Except URLError GoURL :=
  let text := goToLower text0
  if goLen text < 5 then .error .tooShort
  else if goStartsWith text "https://" then
    match P text with
    | none => .error .parseFail
    | some u => .ok u
  else if goStartsWith text "http://" then
    match P text with
    | none => .error .parseFail
    | some u => .ok u
  else if goStartsWith text "//" then
    match P text with
    | none => .error .parseFail
    | some u => .ok u
  else
    match P ("http://" ++ text) with
    | none => .error .parseFail
    | some u => if u.host = "" then .error .emptyHost else .ok u

/-! ## The resource registry (`sources.go`)

A `Source` is created exactly once per distinct URL string; its
creation-time fields (`url`, `isExternal`, `isInteresting`,
sources.go:197–201) are immutable.  Go identifies a resource by its
pointer; the model identifies it by its index into the registry's
insertion-ordered sequence `a`, which Go only ever appends to. -/

/-- The creation-time record of a `Source` (sources.go:78). -/
structure Source where
  url : GoURL
  isExternal : Bool
  isInteresting : Bool
deriving DecidableEq, Repr

/-- The `Source` literal built by `Sources.Add` (sources.go:197–201):
external iff the hostname differs from the seed's, interesting iff
the scheme is one of `http`, `https`, `file`. -/
def mkSource (seed url : GoURL) : Source :=
  { url := url
    isExternal := goHostname seed ≠ goHostname url
    isInteresting := IsInterstingProtocol url }

/-- `Sources` (sources.go:161): the map `m` from exact URL string to
resource (here: to its index in `a`) and the insertion-ordered
sequence `a`. -/
structure Sources where
  m : List (String × Nat)
  a : List Source
deriving Repr

/-- `newSources` (sources.go:169). -/
def newSources : Sources := { m := [], a := [] }

/-- The result of one `Sources.Add` call: the resource (as an index
into the ordered sequence), the `created` flag, and the registry
after the call. -/
structure AddResult where
  res : Nat
  created : Bool
  st : Sources

/-- `Sources.Add` (sources.go:184–206): under the registry lock, look
the URL string up; if present return the existing resource with
`created = false`, otherwise append a fresh resource to both the map
and the sequence and return it with `created = true`. -/
def Sources.add (s : Sources) (seed url : GoURL) : AddResult :=
  match s.m.lookup (urlString url) with
  | some i => ⟨i, false, s⟩
  | none =>
      ⟨s.a.length, true,
        { m := (urlString url, s.a.length) :: s.m
          a := s.a ++ [mkSource seed url] }⟩

/-- Run a sequence of registration attempts. -/
def Sources.addAll (s : Sources) (seed : GoURL) (us : List GoURL) : Sources :=
  us.foldl (fun st u2 => (st.add seed u2).st) s

/-- The URL strings present in the map. -/
def Sources.keys (s : Sources) : List String := s.m.map Prod.fst

/-- The URL strings of the registered resources, in insertion order. -/
def Sources.urlKeys (s : Sources) : List String :=
  s.a.map fun r => urlString r.url

/-- Registry well-formedness: map indices are in range, no URL string
occurs twice (neither among the map keys nor among the registered
resources), and the map keys are exactly the registered URL strings. -/
structure SourcesWF (s : Sources) : Prop where
  idx : ∀ k i, s.m.lookup k = some i → i < s.a.length
  nodupKeys : s.keys.Nodup
  nodupURLs : s.urlKeys.Nodup
  sameMem : ∀ k, k ∈ s.keys ↔ k ∈ s.urlKeys

/-! ## Path cleaning and the path-safety check

`Scanner.isParentPath` (scanner.go:570) applies Go's
`filepath.Clean` to both paths, splits them on the path separator
(modelled as `/`) and compares component-wise.  `cleanComps` is the
component-level model of `filepath.Clean`: empty and `.` elements
vanish, `..` pops the previous element when one exists, leading `..`
elements of a relative path survive and `..` at the root vanishes. -/

def cleanComps (rooted : Bool) : List String → List String → List String
  | [], acc => acc.reverse
  | c :: cs, acc =>
      if c = "" ∨ c = "." then cleanComps rooted cs acc
      else if c = ".." then
        match acc with
        | [] => if rooted then cleanComps rooted cs [] else cleanComps rooted cs [".."]
        | a :: rest =>
            if a = ".." then cleanComps rooted cs (".." :: acc)
            else cleanComps rooted cs rest
      else cleanComps rooted cs (c :: acc)

/-- Join path components with `/`. -/
def joinComps : List String → String
  | [] => ""
  | [c] => c
  | c :: cs => c ++ "/" ++ joinComps cs

/-- Model of Go `filepath.Clean` (with `/` as separator). -/
def goClean (p : String) : String :=
  let rooted := goStartsWith p "/"
  let comps := cleanComps rooted (goSplitChar '/' p) []
  if rooted then "/" ++ joinComps comps
  else if comps = [] then "." else joinComps comps

/-- `Scanner.isParentPath` (scanner.go:570–588), returning `true` when
the check fails (the Go function returns a non-nil error): clean both
paths, split on the separator, error when either split is empty, the
child is shorter than the parent, or some parent component differs
from the child's component at the same index. -/
def isParentPath (parent child : String) : Bool :=
  let p := goSplitChar '/' (goClean parent)
  let c := goSplitChar '/' (goClean child)
  if p.length = 0 ∨ c.length = 0 then true
  else if c.length < p.length then true
  else (p.zip c).any fun pc => pc.1 != pc.2

/-! ## The run-level state machine (`Scanner.Start`, scanner.go:176) -/

inductive ScannerState where
  | Ready
  | IncorrectURL
  | Preparing
  | OutputDirExist
  | OutputDirError
  | Scanning
  | Complete
deriving DecidableEq, Repr

/-- The run state `Scanner.reset` (scanner.go:148–161) clears:
everything except the scanner state itself. -/
structure ScannerCore where
  state : ScannerState
  dir : String
  threads : Nat
deriving DecidableEq, Repr

/-- The admission switch of `Scanner.Start` (scanner.go:179–191): from
`Ready`, `OutputDirExist`, `IncorrectURL` or `Complete` the scanner is
reset (`Scanner.reset`) and moves to `Preparing`; from every other
state `Start` returns an error naming the current state. -/
def startScanner (s : ScannerCore) : Except ScannerState ScannerCore :=
  match s.state with
  | .Ready => .ok { state := .Preparing, dir := "", threads := 0 }
  | .OutputDirExist => .ok { state := .Preparing, dir := "", threads := 0 }
  | .IncorrectURL => .ok { state := .Preparing, dir := "", threads := 0 }
  | .Complete => .ok { state := .Preparing, dir := "", threads := 0 }
  | st => .error st

/-! ## `Scanner.parseSrcset` (scanner.go:671) -/

/-- Absolutisation applied by every extractor (e.g. scanner.go:685):
a URL that is not absolute (`IsAbs()`, i.e. has no scheme) gets the
seed's scheme and host. -/
def resolveRel (seed u : GoURL) : GoURL :=
  if u.scheme ≠ "" then u
  else { u with scheme := seed.scheme, host := seed.host }

/-- `Scanner.parseSrcset` (scanner.go:671–695): split the attribute
value on `","`, split each entry on `" "`, and — once per
space-separated token — parse the *whole comma entry* `arr[i]` (the
token `arr2[j]` itself is never used) and absolutise it. -/
def parseSrcset (seed : GoURL) (val : String) : List GoURL :=
  (goSplitChar ',' val).flatMap fun entry =>
    (goSplitChar ' ' entry).map fun _tok => resolveRel seed (urlParse entry)

/-! ## The per-resource crawl task (`Scanner.scan`, scanner.go:330)

The task is embedded as a function from its inputs — the registry's
answer, the resource's creation-time flags, and an oracle listing the
outcome of each `http.Get`/body-read round — to the trace of its
observable events and its final resource state.  Nondeterminism
(network behaviour, filesystem behaviour) lives in the oracle, so
every execution path of the Go code corresponds to some oracle
value. -/

/-- `SourceState` (sources.go:41–75). -/
inductive SourceState where
  | Wait
  | Request
  | RequestWaitRepeat
  | RequestError
  | Download
  | DownloadError
  | Read
  | Save
  | SaveError
  | Complete
  | Skip
deriving DecidableEq, Repr

/-- `Scanner.waitRepeat` (scanner.go:591–610): the backoff delay in
milliseconds slept before retry number `t` (0 when `t < 1`: the Go
function returns without sleeping). -/
def waitRepeat (t : Nat) : Nat :=
  if t < 1 then 0
  else if t = 1 then 200
  else if t = 2 then 500
  else if t = 3 then 1000
  else if t = 4 then 2000
  else if t = 5 then 5000
  else 8000

/-- The outcome of one round of the request loop: either `http.Get`
fails at the transport level, or it returns a status code; when the
code is neither 503 nor ≥ 400 the body is read and `readOk` gives
the outcome of `ioutil.ReadAll`. -/
inductive Attempt where
  | netErr
  | resp (status : Nat) (readOk : Bool)
deriving DecidableEq, Repr

/-- Why a resource was skipped (scanner.go:352–383). -/
inductive SkipReason where
  | tooLong
  | notInteresting
  | external
deriving DecidableEq, Repr

/-- Observable events of a crawl task, in program order. -/
inductive Ev where
  | register (created : Bool)
  | skipped (reason : SkipReason)
  | setState (st : SourceState)
  | acquire
  | httpGet
  | sleep (ms : Nat)
  | release
  | extract
  | mkdirAll (path : String)
  | writeFile (path : String)
deriving DecidableEq, Repr

/-- How the request loop (scanner.go:391–486) was left. -/
inductive LoopExit where
  /-- left via `return` with a terminal error state (slot released) -/
  | failed
  /-- left via `break`: the body is fully downloaded (slot released
  by the caller right after the loop) -/
  | success
  /-- the outcome oracle ran out while the loop was still going -/
  | running
deriving DecidableEq, Repr

structure LoopRes where
  exit : LoopExit
  repeats : Nat
  last : SourceState
  events : List Ev
deriving DecidableEq, Repr

/-- The request/download loop of `Scanner.scan` (scanner.go:391–486),
entered holding a limiter slot, with retry counter `reps` and the
resource state `cur` on entry.  Each iteration sets `Request` and
issues `http.Get`; transport errors and body-read errors retry
immediately until the counter exceeds `rmax` (then `RequestError` /
`DownloadError`, releasing the slot); a 503 increments the counter,
sleeps `waitRepeat` of the new counter and retries; any other status
≥ 400 is `RequestError`; otherwise the state becomes `Download` and
a fully read body leaves the loop. -/
def requestLoop (rmax : Nat) (oracle : List Attempt) (reps : Nat)
    (cur : SourceState) : LoopRes :=
  match oracle with
  | [] => ⟨.running, reps, cur, []⟩
  | a :: rest =>
    match a with
    | .netErr =>
        if reps + 1 > rmax then
          ⟨.failed, reps + 1, .RequestError,
            [.setState .Request, .httpGet, .setState .RequestError, .release]⟩
        else
          let r := requestLoop rmax rest (reps + 1) .RequestWaitRepeat
          ⟨r.exit, r.repeats, r.last,
            [.setState .Request, .httpGet, .setState .RequestWaitRepeat] ++ r.events⟩
    | .resp status readOk =>
        if status = 503 then
          let r := requestLoop rmax rest (reps + 1) .RequestWaitRepeat
          ⟨r.exit, r.repeats, r.last,
            [.setState .Request, .httpGet, .setState .RequestWaitRepeat,
              .sleep (waitRepeat (reps + 1))] ++ r.events⟩
        else if status ≥ 400 then
          ⟨.failed, reps, .RequestError,
            [.setState .Request, .httpGet, .setState .RequestError, .release]⟩
        else if readOk then
          ⟨.success, reps, .Download,
            [.setState .Request, .httpGet, .setState .Download]⟩
        else if reps + 1 > rmax then
          ⟨.failed, reps + 1, .DownloadError,
            [.setState .Request, .httpGet, .setState .Download,
              .setState .DownloadError, .release]⟩
        else
          let r := requestLoop rmax rest (reps + 1) .Request
          ⟨r.exit, r.repeats, r.last,
            [.setState .Request, .httpGet, .setState .Download,
              .setState .Request] ++ r.events⟩

/-- Is `n` a contiguous run inside `hay`? -/
def listIsInfixOf : List Char → List Char → Bool
  | n, [] => n.isEmpty
  | n, hay@(_ :: t) => n.isPrefixOf hay || listIsInfixOf n t

/-- Model of Go `strings.Contains`. -/
def goContains (s sub : String) : Bool := listIsInfixOf sub.data s.data

/-- The extraction dispatch on the sniffed content type
(scanner.go:502–515): HTML runs the structural and the textual
extractor, known binary categories run none, everything else runs
the textual extractor. -/
def extractEvents (mim : String) : List Ev :=
  if goContains mim "text/html" then [.extract, .extract]
  else if goContains mim "application/octet-stream" || goContains mim "model" ||
      goContains mim "font" || goContains mim "image" || goContains mim "video" ||
      goContains mim "audio" || goContains mim "application/ogg" then []
  else [.extract]

/-- Model of Go `filepath.Split`: directory (up to and including the
last `/`) and file name (after it). -/
def splitLast (p : String) : String × String :=
  let n := (p.data.reverse.takeWhile (· ≠ '/')).length
  (⟨p.data.take (p.data.length - n)⟩, ⟨p.data.drop (p.data.length - n)⟩)

/-- The file-name fixups of `Scanner.scan` (scanner.go:522–532): an
empty name becomes `/index.html`; a name without an extension gets
the first extension `mime.ExtensionsByType` offers (modelled by the
ambient table `mimeExts`), falling back to `.html`. -/
def saveName (mimeExts : String → List String) (mim : String) (name : String) : String :=
  if name = "" then "/index.html"
  else if name.data.contains '.' = false then
    match mimeExts mim with
    | [] => name ++ ".html"
    | e :: _ => name ++ e
  else name

/-- Configuration and environment of one crawl task:
`ScannerParams.RepeatsMax`, the output root `Scanner.dir`, the
`mime.ExtensionsByType` table, and the outcomes of `os.MkdirAll` and
`os.WriteFile`. -/
structure ScanCfg where
  repeatsMax : Nat
  dir : String
  mimeExts : String → List String
  mkdirOk : Bool
  writeOk : Bool

/-- The save phase of `Scanner.scan` (scanner.go:517–567): set
`Save`, compute the destination, run `isParentPath`, create the
directories and write the file; the first failure is a terminal
`SaveError`, otherwise the resource completes. -/
def savePhase (cfg : ScanCfg) (mim : String) (urlPath : String) :
    List Ev × SourceState :=
  let pn := splitLast urlPath
  let name := saveName cfg.mimeExts mim pn.2
  if isParentPath cfg.dir (cfg.dir ++ pn.1 ++ name) then
    ([.setState .Save, .setState .SaveError], .SaveError)
  else if cfg.mkdirOk = false then
    ([.setState .Save, .mkdirAll (cfg.dir ++ pn.1), .setState .SaveError], .SaveError)
  else if cfg.writeOk = false then
    ([.setState .Save, .mkdirAll (cfg.dir ++ pn.1),
      .writeFile (cfg.dir ++ pn.1 ++ name), .setState .SaveError], .SaveError)
  else
    ([.setState .Save, .mkdirAll (cfg.dir ++ pn.1),
      .writeFile (cfg.dir ++ pn.1 ++ name), .setState .Complete], .Complete)

/-- The outcome of one crawl task: its event trace, the last resource
state it assigned (`none` when it lost the registration race and
touched nothing), its final retry counter, and whether it ran to
completion (`false` only when the oracle ran out mid-loop). -/
structure TaskOut where
  events : List Ev
  state : Option SourceState
  repeats : Nat
  finished : Bool

/-- `Scanner.scan` (scanner.go:330–568) for one resource: register
(losers stop), evaluate the skip predicates in order (too-long URL,
uninteresting scheme, foreign domain), acquire a limiter slot, run
the request loop, and on success release the slot, extract links and
save. -/
def scanTask (cfg : ScanCfg) (seed u : GoURL) (created : Bool)
    (oracle : List Attempt) (mim : String) : TaskOut :=
  if created = false then
    ⟨[.register false], none, 0, true⟩
  else if goLen (urlString u) > 1000 then
    ⟨[.register true, .setState .Skip, .skipped .tooLong], some .Skip, 0, true⟩
  else if (mkSource seed u).isInteresting = false then
    ⟨[.register true, .setState .Skip, .skipped .notInteresting], some .Skip, 0, true⟩
  else if (mkSource seed u).isExternal = true then
    ⟨[.register true, .setState .Skip, .skipped .external], some .Skip, 0, true⟩
  else
    let r := requestLoop cfg.repeatsMax oracle 0 .Wait
    match r.exit with
    | .running =>
        ⟨[.register true, .acquire] ++ r.events, some r.last, r.repeats, false⟩
    | .failed =>
        ⟨[.register true, .acquire] ++ r.events, some r.last, r.repeats, true⟩
    | .success =>
        let sv := savePhase cfg mim u.path
        ⟨[.register true, .acquire] ++ r.events ++ [.release, .setState .Read] ++
            extractEvents mim ++ sv.1,
          some sv.2, r.repeats, true⟩

/-- The backoff delays slept along a trace, in order. -/
def sleeps (evs : List Ev) : List Nat :=
  evs.filterMap fun e =>
    match e with
    | .sleep ms => some ms
    | _ => none

/-! ### Event classifiers -/

def isGet : Ev → Bool
  | .httpGet => true
  | _ => false

def isAcquire : Ev → Bool
  | .acquire => true
  | _ => false

def isRelease : Ev → Bool
  | .release => true
  | _ => false

def isWrite : Ev → Bool
  | .writeFile _ => true
  | _ => false

/-- Events recording a terminal error state. -/
def isErrState : Ev → Bool
  | .setState .RequestError => true
  | .setState .DownloadError => true
  | .setState .SaveError => true
  | _ => false

/-- The event recording a transition to `RequestWaitRepeat`. -/
def isWaitRepeatState : Ev → Bool
  | .setState .RequestWaitRepeat => true
  | _ => false

/-- Events of the request/download phase: the only events the request
loop emits while holding the limiter slot. -/
def isFetchPhase : Ev → Bool
  | .setState _ => true
  | .httpGet => true
  | .sleep _ => true
  | _ => false

/-- Events of the read/save phase after the slot is released: state
changes, link extraction and filesystem calls — no network fetch, no
limiter traffic. -/
def isPostPhase : Ev → Bool
  | .setState _ => true
  | .extract => true
  | .mkdirAll _ => true
  | .writeFile _ => true
  | _ => false

/-- The event recording an `os.MkdirAll` call. -/
def isMkdir : Ev → Bool
  | .mkdirAll _ => true
  | _ => false

/-! ## Interleaved execution under the admission gate

A global execution is a list of (goroutine id, event) pairs — an
arbitrary interleaving of the per-task traces.  The limiter
(`Scanner.limiter`, a buffered channel of capacity
`PARALLEL_REQUESTS_MAX`) blocks a send while the buffer is full, so
along every prefix of a real execution
`acquires ≤ releases + capacity`; that is the only property of the
channel the bound needs. -/

/-- Modelled from the spec: the constant `PARALLEL_REQUESTS_MAX`, the
capacity of `Scanner.limiter` (scanner.go:150).  Its defining source
file is not part of the provided sources; the spec fixes the default
capacity at 20. -/
def PARALLEL_REQUESTS_MAX : Nat := 20

/-- The events goroutine `t` performed, in order. -/
def projEvents (t : Nat) (tr : List (Nat × Ev)) : List Ev :=
  (tr.filter fun q => q.1 == t).map Prod.snd

/-- All events of the interleaving, in order. -/
def globalEvents (tr : List (Nat × Ev)) : List Ev := tr.map Prod.snd

/-- The channel semantics of the limiter with capacity `cap`: no
prefix of the execution has more acquires than releases plus `cap`. -/
def ChannelBounded (cap : Nat) (tr : List (Nat × Ev)) : Prop :=
  ∀ pfx, pfx <+: tr →
    (globalEvents pfx).countP isAcquire ≤ (globalEvents pfx).countP isRelease + cap

/-- Every goroutine of the interleaving is (a prefix of) one crawl
task. -/
def ScanInterleaving (tr : List (Nat × Ev)) : Prop :=
  ∀ t : Nat, ∃ cfg seed u created oracle mim,
    projEvents t tr <+: (scanTask cfg seed u created oracle mim).events

/-- Goroutine `t` holds a limiter slot: it has acquired and not yet
released. -/
def holding (t : Nat) (tr : List (Nat × Ev)) : Bool :=
  decide ((projEvents t tr).countP isRelease < (projEvents t tr).countP isAcquire)

/-- Goroutine `t` has an HTTP request in flight: the last thing it
did was call `http.Get`. -/
def fetching (t : Nat) (tr : List (Nat × Ev)) : Bool :=
  decide ((projEvents t tr).getLast? = some Ev.httpGet)

/-- The distinct goroutine ids of the interleaving. -/
def taskIds (tr : List (Nat × Ev)) : List Nat := (tr.map Prod.fst).dedup

/-- How many goroutines have an HTTP request in flight. -/
def numFetching (tr : List (Nat × Ev)) : Nat :=
  ((taskIds tr).filter fun t => fetching t tr).length

/-! ## Theorems -/

theorem lowerChar_toNat (c : Char) (h : 65 ≤ c.toNat ∧ c.toNat ≤ 90) :
    (lowerChar c).toNat = c.toNat + 32 := by
  have hv : (c.toNat + 32).isValidChar := Or.inl (by omega)
  unfold lowerChar
  rw [if_pos h]
  unfold Char.ofNat
  rw [dif_pos hv]
  rfl

theorem lowerChar_of_not (c : Char) (h : ¬(65 ≤ c.toNat ∧ c.toNat ≤ 90)) :
    lowerChar c = c := by
  unfold lowerChar
  rw [if_neg h]

theorem lowerChar_idem (c : Char) : lowerChar (lowerChar c) = lowerChar c := by
  by_cases h : 65 ≤ c.toNat ∧ c.toNat ≤ 90
  · have h2 := lowerChar_toNat c h
    exact lowerChar_of_not _ (by omega)
  · rw [lowerChar_of_not c h]
    exact lowerChar_of_not c h

theorem goToLower_idem (s : String) : goToLower (goToLower s) = goToLower s := by
  unfold goToLower
  simp only [List.map_map]
  rw [show lowerChar ∘ lowerChar = lowerChar from funext lowerChar_idem]

theorem goSplitChar_ne_nil (sep : Char) (s : String) : goSplitChar sep s ≠ [] := by
  unfold goSplitChar
  intro h
  exact List.splitOnP_ne_nil _ _ (List.map_eq_nil_iff.mp h)

/-- C10: `parseURL` lowercases the whole input before doing anything
else, so parsing the lowercased input gives the same result as
parsing the original: seed inputs differing only in letter case
yield the same parsed URL. -/
theorem parseURL_toLower_eq (text : String) :
    parseURL (goToLower text) = parseURL text := by
  unfold parseURL
  rw [goToLower_idem]

/-- `parseURL` is the instance of `parseURLWith` at the
success-path parser model: the two agree wherever the stdlib parser
succeeds, which covers every input this development evaluates
`parseURL` on. -/
theorem parseURL_eq_parseURLWith (text : String) :
    parseURL text = parseURLWith (fun s => some (urlParse s)) text := by
  unfold parseURL parseURLWith
  dsimp only

/-- C7 (amended): for every model `P` of the stdlib parser,
`Scanner.parseURL` returns an error if and only if the lowercased
input is shorter than 5 bytes, or the underlying `url.Parse` fails —
on the input itself when it carries one of the `https://`, `http://`,
`//` prefixes, on `http://` plus the input when it is bare — or the
input is bare and the parsed URL has an empty host.  For
prefix-carrying inputs no empty-host check is performed. -/
theorem parseURLWith_error_iff (P : String → Option GoURL) (text : String) :
    (∃ e, parseURLWith P text = Except.error e) ↔
      (goLen (goToLower text) < 5 ∨
        (hasURLPrefix (goToLower text) = true ∧ P (goToLower text) = none) ∨
        (hasURLPrefix (goToLower text) = false ∧
          (P ("http://" ++ goToLower text) = none ∨
            ∃ u, P ("http://" ++ goToLower text) = some u ∧ u.host = ""))) := by
  unfold parseURLWith hasURLPrefix
  dsimp only
  by_cases h1 : goLen (goToLower text) < 5
  · rw [if_pos h1]
    simp [h1]
  rw [if_neg h1]
  by_cases h2 : goStartsWith (goToLower text) "https://" = true
  · rw [if_pos h2]
    cases hP : P (goToLower text) with
    | none => simp [h1, h2, hP]
    | some u => simp [h1, h2, hP]
  rw [if_neg h2]
  by_cases h3 : goStartsWith (goToLower text) "http://" = true
  · rw [if_pos h3]
    cases hP : P (goToLower text) with
    | none => simp [h1, h2, h3, hP]
    | some u => simp [h1, h2, h3, hP]
  rw [if_neg h3]
  by_cases h4 : goStartsWith (goToLower text) "//" = true
  · rw [if_pos h4]
    cases hP : P (goToLower text) with
    | none => simp [h1, h2, h3, h4, hP]
    | some u => simp [h1, h2, h3, h4, hP]
  rw [if_neg h4]
  cases hP : P ("http://" ++ goToLower text) with
  | none => simp [h1, h2, h3, h4, hP]
  | some u =>
      by_cases h5 : u.host = ""
      · simp [h1, h2, h3, h4, hP, h5]
      · simp [h1, h2, h3, h4, hP, h5]

/-- C7 (counterexample to the claim as stated): the input `"http://"`
is not shorter than 5 bytes and parses (with no error) to a URL whose
host is empty, although the claim requires an error exactly when the
resulting URL has an empty host. -/
theorem parseURL_http_prefix_only :
    parseURL "http://" = Except.ok { scheme := "http", host := "", path := "" } ∧
      ¬ goLen "http://" < 5 := by
  constructor
  · rfl
  · decide

theorem lookup_eq_none_iff (l : List (String × Nat)) (k : String) :
    l.lookup k = none ↔ k ∉ l.map Prod.fst := by
  induction l with
  | nil => simp
  | cons hd tl ih =>
      simp only [List.lookup, List.map_cons, List.mem_cons]
      cases hbe : (k == hd.1) with
      | true => simp [beq_iff_eq.mp hbe]
      | false =>
          have hne : k ≠ hd.1 := by simpa using beq_eq_false_iff_ne.mp hbe
          simp [ih, hne]

theorem lookup_isSome_iff (l : List (String × Nat)) (k : String) :
    (∃ i, l.lookup k = some i) ↔ k ∈ l.map Prod.fst := by
  rw [← not_iff_not, ← lookup_eq_none_iff]
  cases h : l.lookup k <;> simp [h]

/-- Case equation for `Sources.add`: the URL string is present. -/
theorem Sources.add_found (s : Sources) (seed url : GoURL) (i : Nat)
    (h : s.m.lookup (urlString url) = some i) :
    s.add seed url = ⟨i, false, s⟩ := by
  unfold Sources.add
  rw [h]

/-- Case equation for `Sources.add`: the URL string is absent. -/
theorem Sources.add_new (s : Sources) (seed url : GoURL)
    (h : s.m.lookup (urlString url) = none) :
    s.add seed url =
      ⟨s.a.length, true,
        { m := (urlString url, s.a.length) :: s.m
          a := s.a ++ [mkSource seed url] }⟩ := by
  unfold Sources.add
  rw [h]

theorem sourcesWF_new : SourcesWF newSources := by
  constructor <;> simp [newSources, Sources.keys, Sources.urlKeys]

theorem sourcesWF_add (s : Sources) (seed url : GoURL) (h : SourcesWF s) :
    SourcesWF (s.add seed url).st := by
  cases hl : s.m.lookup (urlString url) with
  | some i =>
      rw [Sources.add_found s seed url i hl]
      exact h
  | none =>
      rw [Sources.add_new s seed url hl]
      have hkm : urlString url ∉ s.keys := (lookup_eq_none_iff _ _).mp hl
      have hka : urlString url ∉ s.urlKeys := fun hmem =>
        hkm ((h.sameMem _).mpr hmem)
      constructor
      · intro k i hki
        simp only [List.lookup] at hki
        cases hk : (k == urlString url) with
        | true =>
            rw [beq_iff_eq.mp hk] at hki
            simp only [beq_self_eq_true] at hki
            simp only [Option.some.injEq] at hki
            simp [← hki, List.length_append]
        | false =>
            have hk2 : (k == (urlString url, s.a.length).1) = false := hk
            rw [hk2] at hki
            have := h.idx k i hki
            simp only [List.length_append]
            omega
      · simp only [Sources.keys, List.map_cons]
        rw [List.nodup_cons]
        exact ⟨hkm, h.nodupKeys⟩
      · simp only [Sources.urlKeys, List.map_append, List.map_cons, List.map_nil]
        rw [List.nodup_append]
        refine ⟨h.nodupURLs, List.nodup_singleton _, ?_⟩
        intro x hx hx1
        simp only [mkSource, List.mem_singleton] at hx1
        exact hka (hx1 ▸ hx)
      · intro k
        simp only [Sources.keys, Sources.urlKeys, List.map_cons, List.map_append,
          List.map_nil, List.mem_cons, List.mem_append, List.mem_singleton, mkSource]
        have := h.sameMem k
        simp only [Sources.keys, Sources.urlKeys] at this
        tauto

theorem sourcesWF_addAll (s : Sources) (seed : GoURL) (us : List GoURL)
    (h : SourcesWF s) : SourcesWF (s.addAll seed us) := by
  induction us generalizing s with
  | nil => exact h
  | cons u2 tl ih => exact ih _ (sourcesWF_add s seed u2 h)

/-- The map never forgets or reassigns an entry. -/
theorem lookup_add_stable (s : Sources) (seed url : GoURL) (k : String) (i : Nat)
    (h : s.m.lookup k = some i) : (s.add seed url).st.m.lookup k = some i := by
  cases hl : s.m.lookup (urlString url) with
  | some j =>
      rw [Sources.add_found s seed url j hl]
      exact h
  | none =>
      rw [Sources.add_new s seed url hl]
      simp only [List.lookup]
      have hk : (k == urlString url) = false := by
        rw [beq_eq_false_iff_ne]
        intro he
        rw [he, hl] at h
        cases h
      have hk2 : (k == (urlString url, s.a.length).1) = false := hk
      rw [hk2]
      exact h

theorem lookup_addAll_stable (s : Sources) (seed : GoURL) (us : List GoURL)
    (k : String) (i : Nat) (h : s.m.lookup k = some i) :
    (s.addAll seed us).m.lookup k = some i := by
  induction us generalizing s with
  | nil => exact h
  | cons u2 tl ih => exact ih _ (lookup_add_stable s seed u2 k i h)

/-- The ordered sequence is append-only: each registered resource
stays at its index. -/
theorem getElem?_add_stable (s : Sources) (seed url : GoURL) (i : Nat) (r : Source)
    (h : s.a[i]? = some r) : (s.add seed url).st.a[i]? = some r := by
  cases hl : s.m.lookup (urlString url) with
  | some j =>
      rw [Sources.add_found s seed url j hl]
      exact h
  | none =>
      rw [Sources.add_new s seed url hl]
      have hlt : i < s.a.length := by
        by_contra hge
        rw [List.getElem?_eq_none (by omega)] at h
        cases h
      rw [List.getElem?_append_left hlt]
      exact h

theorem getElem?_addAll_stable (s : Sources) (seed : GoURL) (us : List GoURL)
    (i : Nat) (r : Source) (h : s.a[i]? = some r) :
    (s.addAll seed us).a[i]? = some r := by
  induction us generalizing s with
  | nil => exact h
  | cons u2 tl ih => exact ih _ (getElem?_add_stable s seed u2 i r h)

/-- C1: registry deduplication.  Starting from the empty registry and
after any sequence `pre` of registration attempts: no two registered
resources share a URL string; a further attempt on `u` creates a new
resource exactly when no resource with `u`'s URL string is registered
yet (and the created resource is the record `Sources.Add` builds);
and after any further sequence `mid` of attempts, a repeated attempt
on `u` observes `created = false` and the identical resource — the
same index, holding the same record — as the earlier attempt. -/
theorem registry_dedup (seed : GoURL) (pre mid : List GoURL) (u : GoURL) :
    (newSources.addAll seed pre).urlKeys.Nodup ∧
    (((newSources.addAll seed pre).add seed u).created = true ↔
      urlString u ∉ (newSources.addAll seed pre).urlKeys) ∧
    ((((newSources.addAll seed pre).add seed u).st.addAll seed mid).add seed u).created
        = false ∧
    ((((newSources.addAll seed pre).add seed u).st.addAll seed mid).add seed u).res
        = ((newSources.addAll seed pre).add seed u).res ∧
    ∃ r : Source,
      ((newSources.addAll seed pre).add seed u).st.a[
          ((newSources.addAll seed pre).add seed u).res]? = some r ∧
      ((((newSources.addAll seed pre).add seed u).st.addAll seed mid).add seed u).st.a[
          ((((newSources.addAll seed pre).add seed u).st.addAll seed mid).add seed u).res]?
        = some r ∧
      (((newSources.addAll seed pre).add seed u).created = true → r = mkSource seed u) := by
  have hWF : SourcesWF (newSources.addAll seed pre) :=
    sourcesWF_addAll _ _ _ sourcesWF_new
  cases hl : (newSources.addAll seed pre).m.lookup (urlString u) with
  | some i =>
      rw [Sources.add_found _ seed u i hl]
      dsimp only
      have hmemK : urlString u ∈ (newSources.addAll seed pre).keys :=
        (lookup_isSome_iff _ _).mp ⟨i, hl⟩
      have hmemU : urlString u ∈ (newSources.addAll seed pre).urlKeys :=
        (hWF.sameMem _).mp hmemK
      have hl2 : ((newSources.addAll seed pre).addAll seed mid).m.lookup (urlString u)
          = some i := lookup_addAll_stable _ seed mid _ i hl
      rw [Sources.add_found _ seed u i hl2]
      dsimp only
      have hlt : i < (newSources.addAll seed pre).a.length := hWF.idx _ i hl
      refine ⟨hWF.nodupURLs, ?_, rfl, rfl, ?_⟩
      · constructor
        · intro hfalse
          cases hfalse
        · intro hnot
          exact absurd hmemU hnot
      · refine ⟨(newSources.addAll seed pre).a[i], List.getElem?_eq_getElem hlt, ?_, ?_⟩
        · exact getElem?_addAll_stable _ seed mid i _ (List.getElem?_eq_getElem hlt)
        · intro hfalse
          cases hfalse
  | none =>
      rw [Sources.add_new _ seed u hl]
      dsimp only
      have hmemK : urlString u ∉ (newSources.addAll seed pre).keys :=
        (lookup_eq_none_iff _ _).mp hl
      have hmemU : urlString u ∉ (newSources.addAll seed pre).urlKeys := fun hm =>
        hmemK ((hWF.sameMem _).mpr hm)
      have hself : ((urlString u, (newSources.addAll seed pre).a.length) ::
          (newSources.addAll seed pre).m).lookup (urlString u)
          = some (newSources.addAll seed pre).a.length := by
        simp [List.lookup]
      have hl2 := lookup_addAll_stable
        ⟨(urlString u, (newSources.addAll seed pre).a.length) ::
            (newSources.addAll seed pre).m,
          (newSources.addAll seed pre).a ++ [mkSource seed u]⟩
        seed mid _ _ hself
      rw [Sources.add_found _ seed u _ hl2]
      dsimp only
      have hgetNew : ((newSources.addAll seed pre).a ++ [mkSource seed u])[
          (newSources.addAll seed pre).a.length]? = some (mkSource seed u) :=
        List.getElem?_concat_length _ _
      refine ⟨hWF.nodupURLs, ?_, rfl, rfl, ?_⟩
      · exact ⟨fun _ => hmemU, fun _ => rfl⟩
      · exact ⟨mkSource seed u, hgetNew,
          getElem?_addAll_stable _ seed mid _ _ hgetNew, fun _ => rfl⟩

/-! ### Behaviour of the request loop -/

/-- A run whose every `http.Get` fails at the transport level: with
the retry counter at `reps` on entry and `n = rmax + 1 - reps` rounds
available, the loop terminates in `RequestError` having issued
exactly `n` requests, released the slot exactly once and slept
never. -/
theorem requestLoop_allNetErr (rmax : Nat) (n reps : Nat) (cur : SourceState)
    (hsum : reps + n = rmax + 1) (hle : reps ≤ rmax) :
    (requestLoop rmax (List.replicate n .netErr) reps cur).exit = .failed ∧
    (requestLoop rmax (List.replicate n .netErr) reps cur).repeats = rmax + 1 ∧
    (requestLoop rmax (List.replicate n .netErr) reps cur).last = .RequestError ∧
    (requestLoop rmax (List.replicate n .netErr) reps cur).events.countP isGet = n ∧
    (requestLoop rmax (List.replicate n .netErr) reps cur).events.countP isRelease = 1 ∧
    (requestLoop rmax (List.replicate n .netErr) reps cur).events.countP isAcquire = 0 ∧
    sleeps (requestLoop rmax (List.replicate n .netErr) reps cur).events = [] := by
  induction n generalizing reps cur with
  | zero => omega
  | succ n ih =>
      rw [List.replicate_succ]
      by_cases hb : reps + 1 > rmax
      · have hn0 : n = 0 := by omega
        subst hn0
        rw [show requestLoop rmax (Attempt.netErr :: List.replicate 0 .netErr) reps cur =
            ⟨.failed, reps + 1, .RequestError,
              [.setState .Request, .httpGet, .setState .RequestError, .release]⟩ by
          simp only [requestLoop]
          rw [if_pos hb]]
        exact ⟨rfl, by show reps + 1 = rmax + 1; omega, rfl, rfl, rfl, rfl, rfl⟩
      · rw [show requestLoop rmax (Attempt.netErr :: List.replicate n .netErr) reps cur =
            ⟨(requestLoop rmax (List.replicate n .netErr) (reps + 1) .RequestWaitRepeat).exit,
              (requestLoop rmax (List.replicate n .netErr) (reps + 1) .RequestWaitRepeat).repeats,
              (requestLoop rmax (List.replicate n .netErr) (reps + 1) .RequestWaitRepeat).last,
              [.setState .Request, .httpGet, .setState .RequestWaitRepeat] ++
                (requestLoop rmax (List.replicate n .netErr) (reps + 1) .RequestWaitRepeat).events⟩ by
          simp only [requestLoop]
          rw [if_neg hb]]
        obtain ⟨h1, h2, h3, h4, h5, h7, h6⟩ :=
          ih (reps + 1) .RequestWaitRepeat (by omega) (by omega)
        refine ⟨h1, h2, h3, ?_, ?_, ?_, ?_⟩
        · rw [List.countP_append, h4]
          simp [List.countP_cons, isGet]
          omega
        · rw [List.countP_append, h5]
          simp [List.countP_cons, isRelease]
        · rw [List.countP_append, h7]
          simp [List.countP_cons, isAcquire]
        · simp only [sleeps, List.filterMap_append]
          simp only [sleeps] at h6
          rw [h6]
          rfl

/-- A run whose every request succeeds (status neither 503 nor ≥ 400)
but whose every body read fails: the loop terminates in
`DownloadError` after exactly `rmax + 1 - reps` rounds, one slot
release, no sleeps. -/
theorem requestLoop_allReadFail (rmax : Nat) (status : Nat) (n reps : Nat)
    (cur : SourceState) (hs503 : status ≠ 503) (hs400 : status < 400)
    (hsum : reps + n = rmax + 1) (hle : reps ≤ rmax) :
    (requestLoop rmax (List.replicate n (.resp status false)) reps cur).exit = .failed ∧
    (requestLoop rmax (List.replicate n (.resp status false)) reps cur).repeats = rmax + 1 ∧
    (requestLoop rmax (List.replicate n (.resp status false)) reps cur).last = .DownloadError ∧
    (requestLoop rmax (List.replicate n (.resp status false)) reps cur).events.countP isGet = n ∧
    (requestLoop rmax (List.replicate n (.resp status false)) reps cur).events.countP isRelease = 1 ∧
    (requestLoop rmax (List.replicate n (.resp status false)) reps cur).events.countP isAcquire = 0 ∧
    sleeps (requestLoop rmax (List.replicate n (.resp status false)) reps cur).events = [] := by
  induction n generalizing reps cur with
  | zero => omega
  | succ n ih =>
      rw [List.replicate_succ]
      by_cases hb : reps + 1 > rmax
      · have hn0 : n = 0 := by omega
        subst hn0
        rw [show requestLoop rmax (Attempt.resp status false :: List.replicate 0 _) reps cur =
            ⟨.failed, reps + 1, .DownloadError,
              [.setState .Request, .httpGet, .setState .Download,
                .setState .DownloadError, .release]⟩ by
          simp only [requestLoop]
          rw [if_neg hs503, if_neg (by omega), if_neg (Bool.false_ne_true), if_pos hb]]
        exact ⟨rfl, by show reps + 1 = rmax + 1; omega, rfl, rfl, rfl, rfl, rfl⟩
      · rw [show requestLoop rmax (Attempt.resp status false :: List.replicate n _) reps cur =
            ⟨(requestLoop rmax (List.replicate n (.resp status false)) (reps + 1) .Request).exit,
              (requestLoop rmax (List.replicate n (.resp status false)) (reps + 1) .Request).repeats,
              (requestLoop rmax (List.replicate n (.resp status false)) (reps + 1) .Request).last,
              [.setState .Request, .httpGet, .setState .Download, .setState .Request] ++
                (requestLoop rmax (List.replicate n (.resp status false)) (reps + 1) .Request).events⟩ by
          simp only [requestLoop]
          rw [if_neg hs503, if_neg (by omega), if_neg (Bool.false_ne_true), if_neg hb]]
        obtain ⟨h1, h2, h3, h4, h5, h7, h6⟩ := ih (reps + 1) .Request (by omega) (by omega)
        refine ⟨h1, h2, h3, ?_, ?_, ?_, ?_⟩
        · rw [List.countP_append, h4]
          simp [List.countP_cons, isGet]
          omega
        · rw [List.countP_append, h5]
          simp [List.countP_cons, isRelease]
        · rw [List.countP_append, h7]
          simp [List.countP_cons, isAcquire]
        · simp only [sleeps, List.filterMap_append]
          simp only [sleeps] at h6
          rw [h6]
          rfl

/-- A run whose every response is 503: the loop never terminates (it
consumes the whole oracle and is still going), increments the retry
counter once per round, never records a terminal error state, never
releases the slot, and sleeps `waitRepeat` of the running attempt
count before each retry. -/
theorem requestLoop_all503 (rmax : Nat) (n reps : Nat) (cur : SourceState) :
    (requestLoop rmax (List.replicate n (.resp 503 true)) reps cur).exit = .running ∧
    (requestLoop rmax (List.replicate n (.resp 503 true)) reps cur).repeats = reps + n ∧
    sleeps (requestLoop rmax (List.replicate n (.resp 503 true)) reps cur).events =
      (List.range n).map (fun i => waitRepeat (reps + 1 + i)) ∧
    (requestLoop rmax (List.replicate n (.resp 503 true)) reps cur).events.countP isRelease = 0 ∧
    (requestLoop rmax (List.replicate n (.resp 503 true)) reps cur).events.countP isErrState = 0 ∧
    (requestLoop rmax (List.replicate n (.resp 503 true)) reps cur).events.countP isWaitRepeatState = n ∧
    (requestLoop rmax (List.replicate n (.resp 503 true)) reps cur).events.countP isGet = n := by
  induction n generalizing reps cur with
  | zero => exact ⟨rfl, rfl, rfl, rfl, rfl, rfl, rfl⟩
  | succ n ih =>
      rw [List.replicate_succ]
      rw [show requestLoop rmax (Attempt.resp 503 true :: List.replicate n _) reps cur =
          ⟨(requestLoop rmax (List.replicate n (.resp 503 true)) (reps + 1) .RequestWaitRepeat).exit,
            (requestLoop rmax (List.replicate n (.resp 503 true)) (reps + 1) .RequestWaitRepeat).repeats,
            (requestLoop rmax (List.replicate n (.resp 503 true)) (reps + 1) .RequestWaitRepeat).last,
            [.setState .Request, .httpGet, .setState .RequestWaitRepeat,
              .sleep (waitRepeat (reps + 1))] ++
              (requestLoop rmax (List.replicate n (.resp 503 true)) (reps + 1) .RequestWaitRepeat).events⟩ by
        simp only [requestLoop]
        rw [if_pos trivial]]
      obtain ⟨h1, h2, h3, h4, h5, h8, h6⟩ := ih (reps + 1) .RequestWaitRepeat
      refine ⟨h1, by rw [h2]; omega, ?_, ?_, ?_, ?_, ?_⟩
      · simp only [sleeps, List.filterMap_append]
        simp only [sleeps] at h3
        rw [h3]
        rw [List.range_succ_eq_map, List.map_cons, List.map_map]
        show waitRepeat (reps + 1) :: _ = waitRepeat (reps + 1 + 0) :: _
        rw [show reps + 1 + 0 = reps + 1 from rfl]
        refine congrArg _ ?_
        refine List.map_congr_left fun i _ => ?_
        show waitRepeat (reps + 1 + 1 + i) = waitRepeat (reps + 1 + Nat.succ i)
        refine congrArg waitRepeat (by omega)
      · rw [List.countP_append, h4]
        simp [List.countP_cons, isRelease]
      · rw [List.countP_append, h5]
        simp [List.countP_cons, isErrState]
      · rw [List.countP_append, h8]
        simp [List.countP_cons, isWaitRepeatState]
        omega
      · rw [List.countP_append, h6]
        simp [List.countP_cons, isGet]
        omega

/-! ### The full task for a fetchable resource -/

/-- A resource that survives the skip predicates and whose request
loop fails terminally: the task is registration, one slot
acquisition, and the loop's events. -/
theorem scanTask_fetch_failed (cfg : ScanCfg) (seed u : GoURL) (oracle : List Attempt)
    (mim : String) (h1 : ¬ goLen (urlString u) > 1000)
    (h2 : (mkSource seed u).isInteresting = true)
    (h3 : (mkSource seed u).isExternal = false)
    (hexit : (requestLoop cfg.repeatsMax oracle 0 .Wait).exit = .failed) :
    scanTask cfg seed u true oracle mim =
      ⟨[.register true, .acquire] ++ (requestLoop cfg.repeatsMax oracle 0 .Wait).events,
        some (requestLoop cfg.repeatsMax oracle 0 .Wait).last,
        (requestLoop cfg.repeatsMax oracle 0 .Wait).repeats, true⟩ := by
  unfold scanTask
  rw [if_neg (by simp), if_neg h1, if_neg (by rw [h2]; simp), if_neg (by rw [h3]; simp)]
  dsimp only
  rw [hexit]

/-- Like `scanTask_fetch_failed`, for a loop that consumed the whole
oracle without terminating: the slot is still held and the task is
not finished. -/
theorem scanTask_fetch_running (cfg : ScanCfg) (seed u : GoURL) (oracle : List Attempt)
    (mim : String) (h1 : ¬ goLen (urlString u) > 1000)
    (h2 : (mkSource seed u).isInteresting = true)
    (h3 : (mkSource seed u).isExternal = false)
    (hexit : (requestLoop cfg.repeatsMax oracle 0 .Wait).exit = .running) :
    scanTask cfg seed u true oracle mim =
      ⟨[.register true, .acquire] ++ (requestLoop cfg.repeatsMax oracle 0 .Wait).events,
        some (requestLoop cfg.repeatsMax oracle 0 .Wait).last,
        (requestLoop cfg.repeatsMax oracle 0 .Wait).repeats, false⟩ := by
  unfold scanTask
  rw [if_neg (by simp), if_neg h1, if_neg (by rw [h2]; simp), if_neg (by rw [h3]; simp)]
  dsimp only
  rw [hexit]

/-- Like `scanTask_fetch_failed`, for a successfully downloaded body:
the slot is released right after the loop and the read/save phase
follows. -/
theorem scanTask_fetch_success (cfg : ScanCfg) (seed u : GoURL) (oracle : List Attempt)
    (mim : String) (h1 : ¬ goLen (urlString u) > 1000)
    (h2 : (mkSource seed u).isInteresting = true)
    (h3 : (mkSource seed u).isExternal = false)
    (hexit : (requestLoop cfg.repeatsMax oracle 0 .Wait).exit = .success) :
    scanTask cfg seed u true oracle mim =
      ⟨[.register true, .acquire] ++ (requestLoop cfg.repeatsMax oracle 0 .Wait).events ++
          [.release, .setState .Read] ++ extractEvents mim ++ (savePhase cfg mim u.path).1,
        some (savePhase cfg mim u.path).2,
        (requestLoop cfg.repeatsMax oracle 0 .Wait).repeats, true⟩ := by
  unfold scanTask
  rw [if_neg (by simp), if_neg h1, if_neg (by rw [h2]; simp), if_neg (by rw [h3]; simp)]
  dsimp only
  rw [hexit]

/-- C4: a resource whose every fetch attempt fails at the transport
level reaches terminal `RequestError` after exactly `RepeatsMax + 1`
requests (the first plus `RepeatsMax` retries), each retried with no
backoff sleep, all inside the single acquired scheduler slot (one
acquire, one release); with every request succeeding (any non-503
status below 400) but every body read failing, the same bound holds
with terminal `DownloadError`. -/
theorem retry_ceiling (cfg : ScanCfg) (seed u : GoURL) (mim : String) (status : Nat)
    (h1 : ¬ goLen (urlString u) > 1000)
    (h2 : (mkSource seed u).isInteresting = true)
    (h3 : (mkSource seed u).isExternal = false)
    (hs503 : status ≠ 503) (hs400 : status < 400) :
    ((scanTask cfg seed u true (List.replicate (cfg.repeatsMax + 1) .netErr) mim).state =
        some .RequestError ∧
      (scanTask cfg seed u true (List.replicate (cfg.repeatsMax + 1) .netErr) mim).finished = true ∧
      (scanTask cfg seed u true (List.replicate (cfg.repeatsMax + 1) .netErr) mim).repeats =
        cfg.repeatsMax + 1 ∧
      (scanTask cfg seed u true (List.replicate (cfg.repeatsMax + 1) .netErr) mim).events.countP
          isGet = cfg.repeatsMax + 1 ∧
      (scanTask cfg seed u true (List.replicate (cfg.repeatsMax + 1) .netErr) mim).events.countP
          isAcquire = 1 ∧
      (scanTask cfg seed u true (List.replicate (cfg.repeatsMax + 1) .netErr) mim).events.countP
          isRelease = 1 ∧
      sleeps (scanTask cfg seed u true (List.replicate (cfg.repeatsMax + 1) .netErr) mim).events
        = []) ∧
    ((scanTask cfg seed u true (List.replicate (cfg.repeatsMax + 1) (.resp status false))
          mim).state = some .DownloadError ∧
      (scanTask cfg seed u true (List.replicate (cfg.repeatsMax + 1) (.resp status false))
          mim).finished = true ∧
      (scanTask cfg seed u true (List.replicate (cfg.repeatsMax + 1) (.resp status false))
          mim).repeats = cfg.repeatsMax + 1 ∧
      (scanTask cfg seed u true (List.replicate (cfg.repeatsMax + 1) (.resp status false))
          mim).events.countP isGet = cfg.repeatsMax + 1 ∧
      (scanTask cfg seed u true (List.replicate (cfg.repeatsMax + 1) (.resp status false))
          mim).events.countP isAcquire = 1 ∧
      (scanTask cfg seed u true (List.replicate (cfg.repeatsMax + 1) (.resp status false))
          mim).events.countP isRelease = 1 ∧
      sleeps (scanTask cfg seed u true (List.replicate (cfg.repeatsMax + 1) (.resp status false))
          mim).events = []) := by
  constructor
  · obtain ⟨e1, e2, e3, e4, e5, e6, e7⟩ :=
      requestLoop_allNetErr cfg.repeatsMax (cfg.repeatsMax + 1) 0 .Wait (by omega) (by omega)
    rw [scanTask_fetch_failed cfg seed u _ mim h1 h2 h3 e1]
    refine ⟨by rw [e3], rfl, e2, ?_, ?_, ?_, ?_⟩
    · rw [List.countP_append, e4]
      simp [List.countP_cons, isGet]
    · rw [List.countP_append, e6]
      simp [List.countP_cons, isAcquire]
    · rw [List.countP_append, e5]
      simp [List.countP_cons, isRelease]
    · simp only [sleeps, List.filterMap_append]
      simp only [sleeps] at e7
      rw [e7]
      rfl
  · obtain ⟨e1, e2, e3, e4, e5, e6, e7⟩ :=
      requestLoop_allReadFail cfg.repeatsMax status (cfg.repeatsMax + 1) 0 .Wait hs503 hs400
        (by omega) (by omega)
    rw [scanTask_fetch_failed cfg seed u _ mim h1 h2 h3 e1]
    refine ⟨by rw [e3], rfl, e2, ?_, ?_, ?_, ?_⟩
    · rw [List.countP_append, e4]
      simp [List.countP_cons, isGet]
    · rw [List.countP_append, e6]
      simp [List.countP_cons, isAcquire]
    · rw [List.countP_append, e5]
      simp [List.countP_cons, isRelease]
    · simp only [sleeps, List.filterMap_append]
      simp only [sleeps] at e7
      rw [e7]
      rfl

/-- C5: a resource whose every response is HTTP 503 is retried
without any attempt bound and never reaches a terminal error state:
however many rounds the oracle supplies, the task is still running
(the slot never released), the state moves to `RequestWaitRepeat` and
the retry counter is incremented on each 503, and before each retry
the task sleeps `waitRepeat` of the attempt count — exactly 200ms for
attempt 1, 500ms for 2, 1000ms for 3, 2000ms for 4, 5000ms for 5 and
8000ms for every attempt 6 or greater. -/
theorem backoff_503 (cfg : ScanCfg) (seed u : GoURL) (mim : String) (n : Nat)
    (h1 : ¬ goLen (urlString u) > 1000)
    (h2 : (mkSource seed u).isInteresting = true)
    (h3 : (mkSource seed u).isExternal = false) :
    waitRepeat 1 = 200 ∧ waitRepeat 2 = 500 ∧ waitRepeat 3 = 1000 ∧
    waitRepeat 4 = 2000 ∧ waitRepeat 5 = 5000 ∧ (∀ k, waitRepeat (6 + k) = 8000) ∧
    (scanTask cfg seed u true (List.replicate n (.resp 503 true)) mim).finished = false ∧
    (scanTask cfg seed u true (List.replicate n (.resp 503 true)) mim).repeats = n ∧
    sleeps (scanTask cfg seed u true (List.replicate n (.resp 503 true)) mim).events =
      (List.range n).map (fun i => waitRepeat (i + 1)) ∧
    (scanTask cfg seed u true (List.replicate n (.resp 503 true)) mim).events.countP
      isErrState = 0 ∧
    (scanTask cfg seed u true (List.replicate n (.resp 503 true)) mim).events.countP
      isRelease = 0 ∧
    (scanTask cfg seed u true (List.replicate n (.resp 503 true)) mim).events.countP
      isWaitRepeatState = n := by
  obtain ⟨e1, e2, e3, e4, e5, e8, e6⟩ := requestLoop_all503 cfg.repeatsMax n 0 .Wait
  rw [scanTask_fetch_running cfg seed u _ mim h1 h2 h3 e1]
  refine ⟨rfl, rfl, rfl, rfl, rfl, ?_, rfl,
    by show (requestLoop cfg.repeatsMax (List.replicate n (Attempt.resp 503 true)) 0
        SourceState.Wait).repeats = n; rw [e2]; omega, ?_, ?_, ?_, ?_⟩
  · intro k
    unfold waitRepeat
    split_ifs <;> omega
  · simp only [sleeps, List.filterMap_append]
    simp only [sleeps] at e3
    rw [e3]
    show _ = List.map _ _
    refine List.map_congr_left fun i _ => ?_
    exact congrArg waitRepeat (by omega)
  · rw [List.countP_append, e5]
    simp [List.countP_cons, isErrState]
  · rw [List.countP_append, e4]
    simp [List.countP_cons, isRelease]
  · rw [List.countP_append, e8]
    simp [List.countP_cons, isWaitRepeatState]

/-- Component-wise comparison: the `for i := range p` loop of
`isParentPath` finds a mismatch iff some index below both lengths
holds different components. -/
theorem any_zip_bne_iff (p c : List String) :
    ((p.zip c).any fun pc => pc.1 != pc.2) = true ↔
      ∃ i, i < p.length ∧ i < c.length ∧ p.getD i "" ≠ c.getD i "" := by
  induction p generalizing c with
  | nil => simp
  | cons a as ih =>
      cases c with
      | nil => simp
      | cons b bs =>
          simp only [List.zip_cons_cons, List.any_cons, Bool.or_eq_true, bne_iff_ne]
          constructor
          · rintro (h | h)
            · exact ⟨0, by simp, by simp, by simpa using h⟩
            · obtain ⟨i, h1, h2, h3⟩ := (ih bs).mp h
              refine ⟨i + 1, by simp; omega, by simp; omega, by simpa using h3⟩
          · rintro ⟨i, h1, h2, h3⟩
            cases i with
            | zero => exact Or.inl (by simpa using h3)
            | succ i =>
                refine Or.inr ((ih bs).mpr ⟨i, ?_, ?_, by simpa using h3⟩)
                · simp at h1; omega
                · simp at h2; omega

/-- C3: the path-safety check `isParentPath` errors exactly when,
after cleaning both paths into component sequences, the candidate has
fewer components than the output root or some root component differs
from the candidate component at the same index; and when the save
phase's check errors the resource ends in terminal `SaveError` with
no directory created and no file written — in particular nothing is
written outside the output root. -/
theorem path_containment (root cand : String) (cfg : ScanCfg) (mim urlPath : String) :
    (isParentPath root cand = true ↔
      ((goSplitChar '/' (goClean cand)).length <
          (goSplitChar '/' (goClean root)).length ∨
        ∃ i, i < (goSplitChar '/' (goClean root)).length ∧
          (goSplitChar '/' (goClean root)).getD i "" ≠
            (goSplitChar '/' (goClean cand)).getD i "")) ∧
    (isParentPath cfg.dir
        (cfg.dir ++ (splitLast urlPath).1 ++
          saveName cfg.mimeExts mim (splitLast urlPath).2) = true →
      (savePhase cfg mim urlPath).2 = .SaveError ∧
      (savePhase cfg mim urlPath).1.countP isWrite = 0 ∧
      (savePhase cfg mim urlPath).1.countP isMkdir = 0) := by
  constructor
  · have hp0 : (goSplitChar '/' (goClean root)).length ≠ 0 := by
      simpa [List.length_eq_zero] using goSplitChar_ne_nil '/' (goClean root)
    have hc0 : (goSplitChar '/' (goClean cand)).length ≠ 0 := by
      simpa [List.length_eq_zero] using goSplitChar_ne_nil '/' (goClean cand)
    unfold isParentPath
    dsimp only
    rw [if_neg (fun h => h.elim hp0 hc0)]
    by_cases hlt : (goSplitChar '/' (goClean cand)).length <
        (goSplitChar '/' (goClean root)).length
    · rw [if_pos hlt]
      exact iff_of_true rfl (Or.inl hlt)
    · rw [if_neg hlt]
      rw [any_zip_bne_iff]
      constructor
      · rintro ⟨i, h1, h2, h3⟩
        exact Or.inr ⟨i, h1, h3⟩
      · rintro (h | ⟨i, h1, h3⟩)
        · omega
        · exact ⟨i, h1, by omega, h3⟩
  · intro hviol
    unfold savePhase
    dsimp only
    rw [if_pos hviol]
    exact ⟨rfl, rfl, rfl⟩

/-- C9: `IsInterstingProtocol` holds exactly for the schemes `http`,
`https` and `file`; and for a resource whose registration created it
the task evaluates the skip predicates in order — URL string longer
than 1000 bytes, non-interesting scheme, foreign domain — and the
first match ends the task in terminal `Skip` with its distinguishing
reason, before any slot acquisition and without any fetch (the full
trace is the three listed events). -/
theorem skip_predicates (cfg : ScanCfg) (seed u : GoURL) (oracle : List Attempt)
    (mim : String) :
    (IsInterstingProtocol u = true ↔
      (u.scheme = "http" ∨ u.scheme = "https" ∨ u.scheme = "file")) ∧
    (goLen (urlString u) > 1000 →
      scanTask cfg seed u true oracle mim =
        ⟨[.register true, .setState .Skip, .skipped .tooLong], some .Skip, 0, true⟩) ∧
    (¬ goLen (urlString u) > 1000 → IsInterstingProtocol u = false →
      scanTask cfg seed u true oracle mim =
        ⟨[.register true, .setState .Skip, .skipped .notInteresting], some .Skip, 0, true⟩) ∧
    (¬ goLen (urlString u) > 1000 → IsInterstingProtocol u = true →
      goHostname seed ≠ goHostname u →
      scanTask cfg seed u true oracle mim =
        ⟨[.register true, .setState .Skip, .skipped .external], some .Skip, 0, true⟩) := by
  refine ⟨?_, ?_, ?_, ?_⟩
  · constructor
    · intro h
      unfold IsInterstingProtocol at h
      split at h
      · exact Or.inl (by assumption)
      · exact Or.inr (Or.inl (by assumption))
      · exact Or.inr (Or.inr (by assumption))
      · cases h
    · rintro (h | h | h) <;> simp [IsInterstingProtocol, h]
  · intro hlong
    unfold scanTask
    rw [if_neg (by simp), if_pos hlong]
  · intro hlen hint
    unfold scanTask
    rw [if_neg (by simp), if_neg hlen,
      if_pos (show (mkSource seed u).isInteresting = false by simp [mkSource, hint])]
  · intro hlen hint hext
    unfold scanTask
    rw [if_neg (by simp), if_neg hlen,
      if_neg (show ¬ (mkSource seed u).isInteresting = false by simp [mkSource, hint]),
      if_pos (show (mkSource seed u).isExternal = true by
        simp only [mkSource]
        exact decide_eq_true hext)]

/-- C6 (behaviour at every state): `Scanner.Start` accepts exactly
the states `Ready`, `IncorrectURL`, `OutputDirExist` and `Complete`
(resetting the run state and moving to `Preparing`) and returns an
error naming the current state from every other state — including
`OutputDirError`, which the function's own documentation
(scanner.go:82, 169–175) lists as restartable. -/
theorem start_admission (s : ScannerCore) :
    (startScanner s = .ok ⟨.Preparing, "", 0⟩ ↔
      (s.state = .Ready ∨ s.state = .IncorrectURL ∨ s.state = .OutputDirExist ∨
        s.state = .Complete)) ∧
    (∀ e, startScanner s = .error e ↔
      (e = s.state ∧ (s.state = .Preparing ∨ s.state = .Scanning ∨
        s.state = .OutputDirError))) := by
  obtain ⟨st, d, n⟩ := s
  cases st <;> constructor <;> first
    | (intro e; constructor
       · intro h
         cases h
         simp
       · rintro ⟨rfl, h⟩
         rfl)
    | (intro e; constructor
       · intro h
         cases h
       · rintro ⟨rfl, h | h | h⟩ <;> cases h)
    | (constructor
       · intro h
         simp
       · intro h
         rfl)
    | (constructor
       · intro h
         cases h
       · rintro (h | h | h | h) <;> cases h)

/-- C8 (divergence record): on the two-candidate attribute value
`"a.png 1x,b.png 2x"` the extractor parses each whole comma entry —
descriptor included — once per space-separated token, yielding four
URLs whose paths retain the descriptors, instead of one URL per
candidate (`a.png`, `b.png`) with the descriptors discarded. -/
theorem srcset_parsed_whole_entry :
    parseSrcset ⟨"http", "example.com", ""⟩ "a.png 1x,b.png 2x" =
      [⟨"http", "example.com", "a.png 1x"⟩, ⟨"http", "example.com", "a.png 1x"⟩,
        ⟨"http", "example.com", "b.png 2x"⟩, ⟨"http", "example.com", "b.png 2x"⟩] := by
  rfl

/-! ## Slot discipline of the crawl task

Everything the request loop emits is request-phase material, with the
single `release` as its very last event on terminal-failure paths;
the read/save phase after the loop is post-phase material.  Hence a
task's trace has one of three shapes: it never touches the limiter,
or it is `register, acquire, fetch-phase…, release, post-phase…`, or
(still mid-loop) `register, acquire, fetch-phase…`. -/

theorem requestLoop_shape (rmax : Nat) (oracle : List Attempt) (reps : Nat)
    (cur : SourceState) :
    ((requestLoop rmax oracle reps cur).exit = .failed →
      ∃ mid, (requestLoop rmax oracle reps cur).events = mid ++ [.release] ∧
        mid.all isFetchPhase = true) ∧
    ((requestLoop rmax oracle reps cur).exit = .success →
      (requestLoop rmax oracle reps cur).events.all isFetchPhase = true) ∧
    ((requestLoop rmax oracle reps cur).exit = .running →
      (requestLoop rmax oracle reps cur).events.all isFetchPhase = true) := by
  induction oracle generalizing reps cur with
  | nil =>
      refine ⟨fun h => ?_, fun _ => rfl, fun _ => rfl⟩
      cases h
  | cons a rest ih =>
      cases a with
      | netErr =>
          by_cases hb : reps + 1 > rmax
          · rw [show requestLoop rmax (.netErr :: rest) reps cur =
                ⟨.failed, reps + 1, .RequestError,
                  [.setState .Request, .httpGet, .setState .RequestError, .release]⟩ by
              simp only [requestLoop]
              rw [if_pos hb]]
            dsimp only
            refine ⟨fun _ => ⟨[.setState .Request, .httpGet, .setState .RequestError],
              rfl, rfl⟩, fun h => ?_, fun h => ?_⟩ <;> cases h
          · rw [show requestLoop rmax (.netErr :: rest) reps cur =
                ⟨(requestLoop rmax rest (reps + 1) .RequestWaitRepeat).exit,
                  (requestLoop rmax rest (reps + 1) .RequestWaitRepeat).repeats,
                  (requestLoop rmax rest (reps + 1) .RequestWaitRepeat).last,
                  [.setState .Request, .httpGet, .setState .RequestWaitRepeat] ++
                    (requestLoop rmax rest (reps + 1) .RequestWaitRepeat).events⟩ by
              simp only [requestLoop]
              rw [if_neg hb]]
            dsimp only
            obtain ⟨f1, f2, f3⟩ := ih (reps + 1) .RequestWaitRepeat
            refine ⟨fun h => ?_, fun h => ?_, fun h => ?_⟩
            · obtain ⟨mid, hmid, hall⟩ := f1 h
              refine ⟨[.setState .Request, .httpGet, .setState .RequestWaitRepeat] ++ mid,
                ?_, ?_⟩
              · rw [hmid, List.append_assoc]
              · rw [List.all_append, hall]
                rfl
            · rw [List.all_append, f2 h]
              rfl
            · rw [List.all_append, f3 h]
              rfl
      | resp status readOk =>
          by_cases h503 : status = 503
          · subst h503
            rw [show requestLoop rmax (.resp 503 readOk :: rest) reps cur =
                ⟨(requestLoop rmax rest (reps + 1) .RequestWaitRepeat).exit,
                  (requestLoop rmax rest (reps + 1) .RequestWaitRepeat).repeats,
                  (requestLoop rmax rest (reps + 1) .RequestWaitRepeat).last,
                  [.setState .Request, .httpGet, .setState .RequestWaitRepeat,
                    .sleep (waitRepeat (reps + 1))] ++
                    (requestLoop rmax rest (reps + 1) .RequestWaitRepeat).events⟩ by
              simp only [requestLoop]
              rw [if_pos trivial]]
            dsimp only
            obtain ⟨f1, f2, f3⟩ := ih (reps + 1) .RequestWaitRepeat
            refine ⟨fun h => ?_, fun h => ?_, fun h => ?_⟩
            · obtain ⟨mid, hmid, hall⟩ := f1 h
              refine ⟨[.setState .Request, .httpGet, .setState .RequestWaitRepeat,
                .sleep (waitRepeat (reps + 1))] ++ mid, ?_, ?_⟩
              · rw [hmid, List.append_assoc]
              · rw [List.all_append, hall]
                rfl
            · rw [List.all_append, f2 h]
              rfl
            · rw [List.all_append, f3 h]
              rfl
          · by_cases h400 : status ≥ 400
            · rw [show requestLoop rmax (.resp status readOk :: rest) reps cur =
                  ⟨.failed, reps, .RequestError,
                    [.setState .Request, .httpGet, .setState .RequestError, .release]⟩ by
                simp only [requestLoop]
                rw [if_neg h503, if_pos h400]]
              dsimp only
              refine ⟨fun _ => ⟨[.setState .Request, .httpGet, .setState .RequestError],
                rfl, rfl⟩, fun h => ?_, fun h => ?_⟩ <;> cases h
            · cases readOk with
              | true =>
                  rw [show requestLoop rmax (.resp status true :: rest) reps cur =
                      ⟨.success, reps, .Download,
                        [.setState .Request, .httpGet, .setState .Download]⟩ by
                    simp only [requestLoop]
                    rw [if_neg h503, if_neg h400, if_pos trivial]]
                  dsimp only
                  refine ⟨fun h => ?_, fun _ => rfl, fun h => ?_⟩ <;> cases h
              | false =>
                  by_cases hb : reps + 1 > rmax
                  · rw [show requestLoop rmax (.resp status false :: rest) reps cur =
                        ⟨.failed, reps + 1, .DownloadError,
                          [.setState .Request, .httpGet, .setState .Download,
                            .setState .DownloadError, .release]⟩ by
                      simp only [requestLoop]
                      rw [if_neg h503, if_neg h400, if_neg (Bool.false_ne_true), if_pos hb]]
                    dsimp only
                    refine ⟨fun _ => ⟨[.setState .Request, .httpGet, .setState .Download,
                      .setState .DownloadError], rfl, rfl⟩,
                      fun h => ?_, fun h => ?_⟩ <;> cases h
                  · rw [show requestLoop rmax (.resp status false :: rest) reps cur =
                        ⟨(requestLoop rmax rest (reps + 1) .Request).exit,
                          (requestLoop rmax rest (reps + 1) .Request).repeats,
                          (requestLoop rmax rest (reps + 1) .Request).last,
                          [.setState .Request, .httpGet, .setState .Download,
                            .setState .Request] ++
                            (requestLoop rmax rest (reps + 1) .Request).events⟩ by
                      simp only [requestLoop]
                      rw [if_neg h503, if_neg h400, if_neg (Bool.false_ne_true), if_neg hb]]
                    dsimp only
                    obtain ⟨f1, f2, f3⟩ := ih (reps + 1) .Request
                    refine ⟨fun h => ?_, fun h => ?_, fun h => ?_⟩
                    · obtain ⟨mid, hmid, hall⟩ := f1 h
                      refine ⟨[.setState .Request, .httpGet, .setState .Download,
                        .setState .Request] ++ mid, ?_, ?_⟩
                      · rw [hmid, List.append_assoc]
                      · rw [List.all_append, hall]
                        rfl
                    · rw [List.all_append, f2 h]
                      rfl
                    · rw [List.all_append, f3 h]
                      rfl

/-- The extraction dispatch only extracts. -/
theorem extractEvents_post (mim : String) : (extractEvents mim).all isPostPhase = true := by
  unfold extractEvents
  split_ifs <;> rfl

/-- The save phase only changes state and touches the filesystem. -/
theorem savePhase_post (cfg : ScanCfg) (mim urlPath : String) :
    (savePhase cfg mim urlPath).1.all isPostPhase = true := by
  unfold savePhase
  dsimp only
  split_ifs <;> rfl

theorem fetch_no_acquire (l : List Ev) (h : l.all isFetchPhase = true) :
    l.countP isAcquire = 0 :=
  List.countP_eq_zero.mpr fun a ha => by
    have := List.all_eq_true.mp h a ha
    cases a <;> simp_all [isFetchPhase, isAcquire]

theorem fetch_no_release (l : List Ev) (h : l.all isFetchPhase = true) :
    l.countP isRelease = 0 :=
  List.countP_eq_zero.mpr fun a ha => by
    have := List.all_eq_true.mp h a ha
    cases a <;> simp_all [isFetchPhase, isRelease]

theorem post_no_acquire (l : List Ev) (h : l.all isPostPhase = true) :
    l.countP isAcquire = 0 :=
  List.countP_eq_zero.mpr fun a ha => by
    have := List.all_eq_true.mp h a ha
    cases a <;> simp_all [isPostPhase, isAcquire]

theorem post_no_release (l : List Ev) (h : l.all isPostPhase = true) :
    l.countP isRelease = 0 :=
  List.countP_eq_zero.mpr fun a ha => by
    have := List.all_eq_true.mp h a ha
    cases a <;> simp_all [isPostPhase, isRelease]

theorem post_no_get (l : List Ev) (h : l.all isPostPhase = true) :
    l.countP isGet = 0 :=
  List.countP_eq_zero.mpr fun a ha => by
    have := List.all_eq_true.mp h a ha
    cases a <;> simp_all [isPostPhase, isGet]

/-- Every trace of `scanTask` has one of three shapes: the limiter is
never touched (and nothing is fetched or written); or the slot is
acquired once right after registration, only request-phase events
happen inside it, and the single release is followed only by
post-phase events; or the task is still inside the loop holding the
slot. -/
theorem scanTask_shape (cfg : ScanCfg) (seed u : GoURL) (created : Bool)
    (oracle : List Attempt) (mim : String) :
    ((scanTask cfg seed u created oracle mim).events.countP isAcquire = 0 ∧
      (scanTask cfg seed u created oracle mim).events.countP isGet = 0 ∧
      (scanTask cfg seed u created oracle mim).events.countP isRelease = 0 ∧
      (scanTask cfg seed u created oracle mim).events.countP isWrite = 0) ∨
    (∃ mid post, (scanTask cfg seed u created oracle mim).events =
        [.register true, .acquire] ++ mid ++ [.release] ++ post ∧
      mid.all isFetchPhase = true ∧ post.all isPostPhase = true ∧
      (scanTask cfg seed u created oracle mim).finished = true) ∨
    (∃ mid, (scanTask cfg seed u created oracle mim).events =
        [.register true, .acquire] ++ mid ∧
      mid.all isFetchPhase = true ∧
      (scanTask cfg seed u created oracle mim).finished = false) := by
  cases created with
  | false => exact Or.inl ⟨rfl, rfl, rfl, rfl⟩
  | true =>
      by_cases hlong : goLen (urlString u) > 1000
      · left
        unfold scanTask
        rw [if_neg (by simp), if_pos hlong]
        exact ⟨rfl, rfl, rfl, rfl⟩
      · by_cases hint : (mkSource seed u).isInteresting = false
        · left
          unfold scanTask
          rw [if_neg (by simp), if_neg hlong, if_pos hint]
          exact ⟨rfl, rfl, rfl, rfl⟩
        · have hint' : (mkSource seed u).isInteresting = true := by
            cases hb : (mkSource seed u).isInteresting
            · exact absurd hb hint
            · rfl
          by_cases hext : (mkSource seed u).isExternal = true
          · left
            unfold scanTask
            rw [if_neg (by simp), if_neg hlong, if_neg hint, if_pos hext]
            exact ⟨rfl, rfl, rfl, rfl⟩
          · have hext' : (mkSource seed u).isExternal = false := by
              cases hb : (mkSource seed u).isExternal
              · rfl
              · exact absurd hb hext
            obtain ⟨f1, f2, f3⟩ := requestLoop_shape cfg.repeatsMax oracle 0 .Wait
            cases hexit : (requestLoop cfg.repeatsMax oracle 0 .Wait).exit with
            | failed =>
                obtain ⟨mid, hmid, hall⟩ := f1 hexit
                refine Or.inr (Or.inl ⟨mid, [], ?_, hall, rfl, ?_⟩)
                · rw [scanTask_fetch_failed cfg seed u oracle mim hlong hint' hext' hexit]
                  dsimp only
                  rw [hmid]
                  simp [List.append_assoc]
                · rw [scanTask_fetch_failed cfg seed u oracle mim hlong hint' hext' hexit]
            | success =>
                refine Or.inr (Or.inl ⟨(requestLoop cfg.repeatsMax oracle 0 .Wait).events,
                  [.setState .Read] ++ extractEvents mim ++ (savePhase cfg mim u.path).1,
                  ?_, f2 hexit, ?_, ?_⟩)
                · rw [scanTask_fetch_success cfg seed u oracle mim hlong hint' hext' hexit]
                  dsimp only
                  simp [List.append_assoc]
                · simp [List.all_append, extractEvents_post, savePhase_post, isPostPhase]
                · rw [scanTask_fetch_success cfg seed u oracle mim hlong hint' hext' hexit]
            | running =>
                refine Or.inr (Or.inr ⟨(requestLoop cfg.repeatsMax oracle 0 .Wait).events,
                  ?_, f3 hexit, ?_⟩)
                · rw [scanTask_fetch_running cfg seed u oracle mim hlong hint' hext' hexit]
                · rw [scanTask_fetch_running cfg seed u oracle mim hlong hint' hext' hexit]

/-- Splitting a prefix of an appended list. -/
theorem prefix_append_split {α : Type} (A B l : List α) (h : l <+: A ++ B) :
    l <+: A ∨ ∃ s, l = A ++ s ∧ s <+: B := by
  obtain ⟨r, hr⟩ := h
  rcases List.append_eq_append_iff.mp hr with ⟨a2, h1, h2⟩ | ⟨c2, h1, h2⟩
  · exact Or.inl ⟨a2, h1.symm⟩
  · exact Or.inr ⟨c2, h1, ⟨r, h2.symm⟩⟩

theorem prefix_of_singleton {α : Type} (a : α) (l : List α) (h : l <+: [a]) :
    l = [] ∨ l = [a] := by
  obtain ⟨r, hr⟩ := h
  cases l with
  | nil => exact Or.inl rfl
  | cons b t =>
      simp only [List.cons_append, List.cons.injEq] at hr
      obtain ⟨rfl, hr2⟩ := hr
      obtain ⟨rfl, -⟩ := List.append_eq_nil.mp hr2
      exact Or.inr rfl

theorem mem_of_getLast?_eq {α : Type} {l : List α} {a : α} (h : l.getLast? = some a) :
    a ∈ l := by
  have hmem : a ∈ l.getLast? := by simp [h]
  obtain ⟨hne, heq⟩ := List.mem_getLast?_eq_getLast hmem
  rw [heq]
  exact List.getLast_mem hne

/-- Facts about any prefix cut inside `register, acquire,
fetch-phase…`: at most the one acquire, no release yet, and a prefix
ending in `httpGet` has seen the acquire. -/
theorem prefix_regacq_mid (evs mid : List Ev) (hmid : mid.all isFetchPhase = true)
    (h : evs <+: [Ev.register true, Ev.acquire] ++ mid) :
    evs.countP isAcquire ≤ 1 ∧ evs.countP isRelease = 0 ∧
    (evs.getLast? = some Ev.httpGet → evs.countP isAcquire = 1) := by
  rcases prefix_append_split _ _ _ h with h3 | ⟨s3, rfl, hs3⟩
  · have hsub := h3.sublist
    have ha := hsub.countP_le isAcquire
    have hr := hsub.countP_le isRelease
    have ha2 : List.countP isAcquire [Ev.register true, Ev.acquire] = 1 := rfl
    have hr2 : List.countP isRelease [Ev.register true, Ev.acquire] = 0 := rfl
    refine ⟨by omega, by omega, fun hlast => ?_⟩
    have hm := hsub.subset (mem_of_getLast?_eq hlast)
    simp at hm
  · have hsA : s3.countP isAcquire = 0 := by
      have h1 := hs3.sublist.countP_le isAcquire
      have h0 := fetch_no_acquire mid hmid
      omega
    have hsR : s3.countP isRelease = 0 := by
      have h1 := hs3.sublist.countP_le isRelease
      have h0 := fetch_no_release mid hmid
      omega
    have hA : ([Ev.register true, Ev.acquire] ++ s3).countP isAcquire = 1 := by
      rw [List.countP_append, hsA]
      rfl
    have hR : ([Ev.register true, Ev.acquire] ++ s3).countP isRelease = 0 := by
      rw [List.countP_append, hsR]
      rfl
    exact ⟨le_of_eq hA, hR, fun _ => hA⟩

/-- Facts about every prefix of a crawl task's trace: the slot is
acquired at most once, never released more often than acquired, and a
prefix that ends in `httpGet` (an HTTP request in flight) has acquired
the slot and not yet released it. -/
theorem taskPrefix_facts (evs : List Ev)
    (h : ∃ cfg seed u created oracle mim,
      evs <+: (scanTask cfg seed u created oracle mim).events) :
    evs.countP isAcquire ≤ 1 ∧
    evs.countP isRelease ≤ evs.countP isAcquire ∧
    (evs.getLast? = some Ev.httpGet →
      evs.countP isAcquire = 1 ∧ evs.countP isRelease = 0) := by
  obtain ⟨cfg, seed, u, created, oracle, mim, hpre⟩ := h
  rcases scanTask_shape cfg seed u created oracle mim with
    ⟨c1, c2, c3, c4⟩ | ⟨mid, post, hev, hmid, hpost, -⟩ | ⟨mid, hev, hmid, -⟩
  · have hsub := hpre.sublist
    have ha := hsub.countP_le isAcquire
    have hr := hsub.countP_le isRelease
    have hg := hsub.countP_le isGet
    rw [c1] at ha
    rw [c3] at hr
    rw [c2] at hg
    refine ⟨by omega, by omega, fun hlast => ?_⟩
    have hm : Ev.httpGet ∈ evs := mem_of_getLast?_eq hlast
    have hpos : 0 < evs.countP isGet := List.countP_pos_iff.mpr ⟨_, hm, rfl⟩
    omega
  · rw [hev] at hpre
    rcases prefix_append_split _ _ _ hpre with h1 | ⟨s1, rfl, hs1⟩
    · rcases prefix_append_split _ _ _ h1 with h2 | ⟨s2, rfl, hs2⟩
      · obtain ⟨ha, hr, hg⟩ := prefix_regacq_mid evs mid hmid h2
        exact ⟨ha, by omega, fun hlast => ⟨hg hlast, hr⟩⟩
      · rcases prefix_of_singleton _ _ hs2 with rfl | rfl
        · rw [List.append_nil]
          obtain ⟨ha, hr, hg⟩ := prefix_regacq_mid _ mid hmid
            (List.prefix_refl _)
          exact ⟨ha, by omega, fun hlast => ⟨hg hlast, hr⟩⟩
        · have hA : (([Ev.register true, Ev.acquire] ++ mid) ++ [Ev.release]).countP
              isAcquire = 1 := by
            rw [List.countP_append, List.countP_append, fetch_no_acquire mid hmid]
            rfl
          have hR : (([Ev.register true, Ev.acquire] ++ mid) ++ [Ev.release]).countP
              isRelease = 1 := by
            rw [List.countP_append, List.countP_append, fetch_no_release mid hmid]
            rfl
          refine ⟨le_of_eq hA, by omega, fun hlast => ?_⟩
          rw [List.getLast?_concat] at hlast
          cases hlast
    · have hsA : s1.countP isAcquire = 0 := by
        have h1 := hs1.sublist.countP_le isAcquire
        have h0 := post_no_acquire post hpost
        omega
      have hsR : s1.countP isRelease = 0 := by
        have h1 := hs1.sublist.countP_le isRelease
        have h0 := post_no_release post hpost
        omega
      have hsG : s1.countP isGet = 0 := by
        have h1 := hs1.sublist.countP_le isGet
        have h0 := post_no_get post hpost
        omega
      have hA : ((([Ev.register true, Ev.acquire] ++ mid) ++ [Ev.release]) ++ s1).countP
          isAcquire = 1 := by
        rw [List.countP_append, List.countP_append, List.countP_append,
          fetch_no_acquire mid hmid, hsA]
        rfl
      have hR : ((([Ev.register true, Ev.acquire] ++ mid) ++ [Ev.release]) ++ s1).countP
          isRelease = 1 := by
        rw [List.countP_append, List.countP_append, List.countP_append,
          fetch_no_release mid hmid, hsR]
        rfl
      refine ⟨le_of_eq hA, by omega, fun hlast => ?_⟩
      cases s1 with
      | nil =>
          rw [List.append_nil, List.getLast?_concat] at hlast
          cases hlast
      | cons b t =>
          rw [List.getLast?_append_of_ne_nil _ (by simp)] at hlast
          have hm : Ev.httpGet ∈ b :: t := mem_of_getLast?_eq hlast
          have hpos : 0 < (b :: t).countP isGet := List.countP_pos_iff.mpr ⟨_, hm, rfl⟩
          omega
  · rw [hev] at hpre
    obtain ⟨ha, hr, hg⟩ := prefix_regacq_mid evs mid hmid hpre
    exact ⟨ha, by omega, fun hlast => ⟨hg hlast, hr⟩⟩

theorem projEvents_cons (t : Nat) (q : Nat × Ev) (tr : List (Nat × Ev)) :
    projEvents t (q :: tr) =
      if q.1 = t then q.2 :: projEvents t tr else projEvents t tr := by
  unfold projEvents
  by_cases h : q.1 = t
  · rw [if_pos h, List.filter_cons_of_pos (by simpa using h), List.map_cons]
  · rw [if_neg h, List.filter_cons_of_neg (by simpa using h)]

theorem sum_map_ite_eq (x : Nat) (ts : List Nat) (hnodup : ts.Nodup) (c : Nat) :
    (ts.map fun t => if x = t then c else 0).sum = if x ∈ ts then c else 0 := by
  induction ts with
  | nil => simp
  | cons a as ih =>
      rw [List.map_cons, List.sum_cons, ih hnodup.of_cons]
      by_cases hxa : x = a
      · subst hxa
        have hnot : x ∉ as := (List.nodup_cons.mp hnodup).1
        simp [hnot]
      · simp [hxa, List.mem_cons]

theorem sum_map_add (ts : List Nat) (f g : Nat → Nat) :
    (ts.map fun t => f t + g t).sum = (ts.map f).sum + (ts.map g).sum := by
  induction ts with
  | nil => rfl
  | cons a as ih =>
      simp only [List.map_cons, List.sum_cons, ih]
      omega

theorem length_filter_eq_sum (ts : List Nat) (f : Nat → Bool) :
    (ts.filter f).length = (ts.map fun t => if f t = true then 1 else 0).sum := by
  induction ts with
  | nil => rfl
  | cons a as ih =>
      by_cases h : f a = true
      · rw [List.filter_cons_of_pos h, List.map_cons, List.sum_cons, if_pos h,
          List.length_cons, ih]
        omega
      · rw [List.filter_cons_of_neg (by simpa using h), List.map_cons, List.sum_cons,
          if_neg h, ih]
        omega

/-- Projection counting: summing an event count over the distinct
goroutine ids recovers the count over the whole interleaving. -/
theorem countP_partition (p : Ev → Bool) (tr : List (Nat × Ev)) (ts : List Nat)
    (hnodup : ts.Nodup) (hcover : ∀ q ∈ tr, q.1 ∈ ts) :
    (ts.map fun t => (projEvents t tr).countP p).sum = (globalEvents tr).countP p := by
  induction tr with
  | nil => simp [projEvents, globalEvents]
  | cons q tr ih =>
      have hcov2 : ∀ q2 ∈ tr, q2.1 ∈ ts := fun q2 hq2 =>
        hcover q2 (List.mem_cons_of_mem _ hq2)
      have hq1 : q.1 ∈ ts := hcover q (List.mem_cons_self _ _)
      have hmap : (ts.map fun t => (projEvents t (q :: tr)).countP p) =
          ts.map fun t => (projEvents t tr).countP p +
            (if q.1 = t then (if p q.2 = true then 1 else 0) else 0) := by
        refine List.map_congr_left fun t _ => ?_
        rw [projEvents_cons]
        by_cases h : q.1 = t
        · rw [if_pos h, if_pos h, List.countP_cons]
        · rw [if_neg h, if_neg h, Nat.add_zero]
      rw [hmap, sum_map_add, ih hcov2, sum_map_ite_eq q.1 ts hnodup, if_pos hq1]
      show _ = (List.map Prod.snd (q :: tr)).countP p
      rw [List.map_cons, List.countP_cons]
      rfl

/-- C2: bounded concurrency.  Per execution path: a crawl task's
trace either never touches the limiter (and fetches, releases and
writes nothing), or acquires one slot right after registration with
only request/download-phase events inside it, releasing it exactly
once with link extraction and disk writes strictly after the release,
or is still mid-loop holding the slot.  Globally: in any interleaving
of crawl tasks whose limiter respects the channel capacity `cap` (the
program's capacity is `PARALLEL_REQUESTS_MAX = 20`), at no point do
more than `cap` HTTP fetches execute concurrently. -/
theorem bounded_concurrency (cfg : ScanCfg) (seed u : GoURL) (created : Bool)
    (oracle : List Attempt) (mim : String) (cap : Nat) (tr : List (Nat × Ev)) :
    (PARALLEL_REQUESTS_MAX = 20 ∧
      (((scanTask cfg seed u created oracle mim).events.countP isAcquire = 0 ∧
        (scanTask cfg seed u created oracle mim).events.countP isGet = 0 ∧
        (scanTask cfg seed u created oracle mim).events.countP isRelease = 0 ∧
        (scanTask cfg seed u created oracle mim).events.countP isWrite = 0) ∨
      (∃ mid post, (scanTask cfg seed u created oracle mim).events =
          [.register true, .acquire] ++ mid ++ [.release] ++ post ∧
        mid.all isFetchPhase = true ∧ post.all isPostPhase = true ∧
        (scanTask cfg seed u created oracle mim).finished = true) ∨
      (∃ mid, (scanTask cfg seed u created oracle mim).events =
          [.register true, .acquire] ++ mid ∧
        mid.all isFetchPhase = true ∧
        (scanTask cfg seed u created oracle mim).finished = false))) ∧
    (ScanInterleaving tr → ChannelBounded cap tr → numFetching tr ≤ cap) := by
  refine ⟨⟨rfl, scanTask_shape cfg seed u created oracle mim⟩, fun hs hc => ?_⟩
  have hnodup := List.nodup_dedup (tr.map Prod.fst)
  have hcover : ∀ q ∈ tr, q.1 ∈ taskIds tr := fun q hq =>
    List.mem_dedup.mpr (List.mem_map_of_mem _ hq)
  have hA := countP_partition isAcquire tr (taskIds tr) hnodup hcover
  have hR := countP_partition isRelease tr (taskIds tr) hnodup hcover
  have hAR : (globalEvents tr).countP isAcquire ≤
      (globalEvents tr).countP isRelease + cap := hc tr (List.prefix_refl tr)
  have hpt : ∀ t ∈ taskIds tr,
      (projEvents t tr).countP isRelease + (if holding t tr = true then 1 else 0) ≤
        (projEvents t tr).countP isAcquire := by
    intro t _
    obtain ⟨h1, h2, h3⟩ := taskPrefix_facts _ (hs t)
    by_cases hh : holding t tr = true
    · rw [if_pos hh]
      have := of_decide_eq_true hh
      omega
    · rw [if_neg hh]
      exact h2
  have hle1 := List.sum_le_sum hpt
  rw [sum_map_add, hR, hA] at hle1
  have hH := length_filter_eq_sum (taskIds tr) fun t => holding t tr
  have hsubset : ∀ t ∈ taskIds tr, fetching t tr = true → holding t tr = true := by
    intro t _ hf
    obtain ⟨h1, h2, h3⟩ := taskPrefix_facts _ (hs t)
    obtain ⟨ha, hr⟩ := h3 (of_decide_eq_true hf)
    exact decide_eq_true (by omega)
  have hmono : numFetching tr ≤ ((taskIds tr).filter fun t => holding t tr).length := by
    unfold numFetching
    rw [length_filter_eq_sum, length_filter_eq_sum]
    refine List.sum_le_sum fun t ht => ?_
    by_cases hf : fetching t tr = true
    · rw [if_pos hf, if_pos (hsubset t ht hf)]
    · rw [if_neg hf]
      exact Nat.zero_le _
  omega

/-! ## Concrete witnesses -/

theorem registry_dedup_witness :
    (urlString ⟨"http", "example.com", "/a"⟩ ∉
      (newSources.addAll ⟨"http", "example.com", "/"⟩ []).urlKeys) ∧
    ((newSources.addAll ⟨"http", "example.com", "/"⟩ []).add ⟨"http", "example.com", "/"⟩
      ⟨"http", "example.com", "/a"⟩).created = true :=
  ⟨by decide,
    ((registry_dedup ⟨"http", "example.com", "/"⟩ [] []
      ⟨"http", "example.com", "/a"⟩).2.1).mpr (by decide)⟩

theorem bounded_concurrency_witness :
    numFetching [(0, Ev.register true), (0, Ev.acquire),
      (0, Ev.setState .Request), (0, Ev.httpGet)] ≤ 1 := by
  refine (bounded_concurrency ⟨0, "/out", fun _ => [], true, true⟩
    ⟨"http", "example.com", "/"⟩ ⟨"http", "example.com", "/"⟩ true [.netErr] "t" 1
    [(0, Ev.register true), (0, Ev.acquire), (0, Ev.setState .Request),
      (0, Ev.httpGet)]).2 ?_ ?_
  · intro t
    refine ⟨⟨0, "/out", fun _ => [], true, true⟩, ⟨"http", "example.com", "/"⟩,
      ⟨"http", "example.com", "/"⟩, true, [.netErr], "t", ?_⟩
    match t with
    | 0 => exact ⟨[.setState .RequestError, .release], by decide⟩
    | n + 1 => exact List.nil_prefix
  · intro pfx hp
    have h1 : (globalEvents pfx).countP isAcquire ≤ 1 := by
      have h2 := (hp.map Prod.snd).sublist.countP_le isAcquire
      have h3 : (List.map Prod.snd [(0, Ev.register true), (0, Ev.acquire),
          (0, Ev.setState SourceState.Request), (0, Ev.httpGet)]).countP isAcquire = 1 := by
        decide
      rw [h3] at h2
      exact h2
    omega

theorem path_containment_witness :
    isParentPath "/out" ("/out" ++ (splitLast "/../etc/passwd").1 ++
      saveName (fun _ => []) "text/html" (splitLast "/../etc/passwd").2) = true ∧
    (savePhase ⟨0, "/out", fun _ => [], true, true⟩ "text/html" "/../etc/passwd").2 =
      .SaveError := by
  refine ⟨by decide, ?_⟩
  exact ((path_containment "/out" "/x" ⟨0, "/out", fun _ => [], true, true⟩ "text/html"
    "/../etc/passwd").2 (by decide)).1

theorem retry_ceiling_witness :
    (¬ goLen (urlString ⟨"http", "example.com", "/"⟩) > 1000) ∧
    (scanTask ⟨1, "/out", fun _ => [], true, true⟩ ⟨"http", "example.com", "/"⟩
      ⟨"http", "example.com", "/"⟩ true (List.replicate 2 .netErr) "t").state =
      some .RequestError := by
  refine ⟨by decide, ?_⟩
  exact (retry_ceiling ⟨1, "/out", fun _ => [], true, true⟩ ⟨"http", "example.com", "/"⟩
    ⟨"http", "example.com", "/"⟩ "t" 200 (by decide) (by decide) (by decide)
    (by decide) (by decide)).1.1

theorem backoff_503_witness :
    sleeps (scanTask ⟨0, "/out", fun _ => [], true, true⟩ ⟨"http", "example.com", "/"⟩
      ⟨"http", "example.com", "/"⟩ true (List.replicate 2 (.resp 503 true)) "t").events =
      [200, 500] := by
  have h := backoff_503 ⟨0, "/out", fun _ => [], true, true⟩ ⟨"http", "example.com", "/"⟩
    ⟨"http", "example.com", "/"⟩ "t" 2 (by decide) (by decide) (by decide)
  rw [h.2.2.2.2.2.2.2.2.1]
  decide

theorem skip_predicates_witness :
    (¬ goLen (urlString ⟨"mailto", "", "bob"⟩) > 1000) ∧
    scanTask ⟨0, "/out", fun _ => [], true, true⟩ ⟨"http", "example.com", "/"⟩
      ⟨"mailto", "", "bob"⟩ true [] "t" =
      ⟨[.register true, .setState .Skip, .skipped .notInteresting], some .Skip, 0, true⟩ := by
  refine ⟨by decide, ?_⟩
  exact (skip_predicates ⟨0, "/out", fun _ => [], true, true⟩ ⟨"http", "example.com", "/"⟩
    ⟨"mailto", "", "bob"⟩ [] "t").2.2.1 (by decide) (by decide)

end GoMirror

